import Mathlib

/-!
Verification of the single-script agentic hello-world program.

The script wires a text-completion endpoint to one tool through a two-node
graph: a decision step (`call_model`) asks the endpoint for a JSON action,
extracts the substring from the first opening brace to the last closing brace,
parses it, and routes; a tool step (`call_tool`) re-parses the last message and
runs the `say_hello` tool; the entry point prints the final answer.

The embedding models Python-level behaviour explicitly:
* a JSON value type together with executable models of `json.loads` and
  `json.dumps` (default separators, `ensure_ascii` escaping, duplicate keys
  resolved as Python dict insertion does).  Floats, `NaN`/`Infinity` tokens and
  lone-surrogate escapes are outside the model: the embedded parser refuses
  them where CPython would produce a float or a lone-surrogate string.
* Python `in`, truthiness, `str()`/`repr()` rendering as used by the script.
* each step returns `Option`: `none` models an exception escaping the step
  (which happens exactly when the message list is empty, since both steps index
  `messages[-1]` before entering their `try` block).
-/

namespace AgenticHello

/-! ### Python string helpers -/

/-- Whitespace for Python `str.strip` (the Unicode whitespace set). -/
def isPySpace (c : Char) : Bool :=
  [9, 10, 11, 12, 13, 28, 29, 30, 31, 32, 133, 160, 5760,
   8192, 8193, 8194, 8195, 8196, 8197, 8198, 8199, 8200, 8201, 8202,
   8232, 8233, 8239, 8287, 12288].contains c.toNat

/-- Python `str.strip()`: drop leading and trailing whitespace. -/
def pyStrip (s : String) : String :=
  String.mk (((s.data.dropWhile isPySpace).reverse.dropWhile isPySpace).reverse)

/-- Index of the first occurrence of a character (Python `str.find`, `none` for -1). -/
def firstIdx (c : Char) : List Char → Option Nat
  | [] => none
  | x :: xs => if x = c then some 0 else (firstIdx c xs).map (· + 1)

/-- Index of the last occurrence of a character (Python `str.rfind`, `none` for -1). -/
def lastIdx (c : Char) (cs : List Char) : Option Nat :=
  (firstIdx c cs.reverse).map (fun k => cs.length - 1 - k)

/-- The slice `response[start:end]` with `start` the first brace and
`end` one past the last closing brace, exactly as `call_model` computes it;
`none` when Python's `start >= 0 and end > start` test fails. -/
def extractBraces (cs : List Char) : Option (List Char) :=
  match firstIdx '\x7b' cs with
  | none => none
  | some i =>
    match lastIdx '\x7d' cs with
    | none => none
    | some j => if i < j + 1 then some ((cs.drop i).take (j + 1 - i)) else none

/-! ### Decimal and hexadecimal digits -/

def digitChar : Nat → Char
  | 0 => '0' | 1 => '1' | 2 => '2' | 3 => '3' | 4 => '4'
  | 5 => '5' | 6 => '6' | 7 => '7' | 8 => '8' | _ => '9'

def natCharsAux : Nat → Nat → List Char
  | 0, _ => []
  | f+1, n => if n < 10 then [digitChar n] else natCharsAux f (n / 10) ++ [digitChar (n % 10)]

/-- Decimal digits of a natural number, most significant first. -/
def natChars (n : Nat) : List Char := natCharsAux (n + 1) n

/-- Python `str`/`json.dumps` form of an integer. -/
def intChars (n : Int) : List Char :=
  if n < 0 then '-' :: natChars n.natAbs else natChars n.toNat

def digitVal (c : Char) : Nat := c.toNat - 48

def digitsVal (ds : List Char) : Nat := ds.foldl (fun a c => a * 10 + digitVal c) 0

def hexVal? (c : Char) : Option Nat :=
  if '0' ≤ c ∧ c ≤ '9' then some (c.toNat - 48)
  else if 'a' ≤ c ∧ c ≤ 'f' then some (c.toNat - 87)
  else if 'A' ≤ c ∧ c ≤ 'F' then some (c.toNat - 55)
  else none

def hex4? (a b c d : Char) : Option Nat :=
  match hexVal? a, hexVal? b, hexVal? c, hexVal? d with
  | some va, some vb, some vc, some vd => some (((va * 16 + vb) * 16 + vc) * 16 + vd)
  | _, _, _, _ => none

def hexDigChar : Nat → Char
  | 0 => '0' | 1 => '1' | 2 => '2' | 3 => '3' | 4 => '4'
  | 5 => '5' | 6 => '6' | 7 => '7' | 8 => '8' | 9 => '9'
  | 10 => 'a' | 11 => 'b' | 12 => 'c' | 13 => 'd' | 14 => 'e' | _ => 'f'

/-- Four lowercase hex digits, as CPython's `json` encoder emits for a scalar below 0x10000. -/
def hex4Chars (n : Nat) : List Char :=
  [hexDigChar (n / 4096 % 16), hexDigChar (n / 256 % 16), hexDigChar (n / 16 % 16),
   hexDigChar (n % 16)]

/-! ### JSON values

One inductive carries value nodes and the spines of arrays and objects, so
every function on it is plain structural recursion and reduces in the kernel.
`lnil`/`lcons` spell an array's element list, `mnil`/`mcons` an object's
member list.  `Json.wf` singles out the well-shaped values (spines only under
`jarr`/`jobj`, object keys distinct), which is what the embedded `json.loads`
produces. -/

inductive Json where
  | jstr (s : String)
  | jint (n : Int)
  | jbool (b : Bool)
  | jnull
  | jarr (elems : Json)
  | jobj (members : Json)
  | lnil
  | lcons (hd : Json) (tl : Json)
  | mnil
  | mcons (key : String) (val : Json) (tl : Json)
deriving DecidableEq

def Json.isVal : Json → Bool
  | .jstr _ | .jint _ | .jbool _ | .jnull | .jarr _ | .jobj _ => true
  | _ => false

def Json.keys : Json → List String
  | .mcons k _ tl => k :: tl.keys
  | _ => []

/-- Key lookup in an object spine (Python `d[k]`, as `Option`). -/
def Json.lookup : Json → String → Option Json
  | .mcons k v tl, key => if k = key then some v else tl.lookup key
  | _, _ => none

def Json.hasKeyB (m : Json) (key : String) : Bool := (m.lookup key).isSome

def Json.chainL : Json → Bool
  | .lnil => true
  | .lcons h tl => h.isVal && tl.chainL
  | _ => false

def Json.chainM : Json → Bool
  | .mnil => true
  | .mcons _ v tl => v.isVal && tl.chainM
  | _ => false

def Json.nodupKeys : Json → Bool
  | .mcons k _ tl => !(tl.keys.contains k) && tl.nodupKeys
  | _ => true

def Json.wf : Json → Bool
  | .jstr _ | .jint _ | .jbool _ | .jnull => true
  | .jarr e => e.chainL && e.wf
  | .jobj m => m.chainM && m.nodupKeys && m.wf
  | .lnil => true
  | .lcons h tl => h.wf && tl.wf
  | .mnil => true
  | .mcons _ v tl => v.wf && tl.wf

def Json.removeKey : Json → String → Json
  | .mcons k v tl, key => if k = key then tl else .mcons k v (tl.removeKey key)
  | m, _ => m

/-- Prepend member `k ↦ v` to an already-built member list the way Python dict
construction resolves duplicates: the first occurrence keeps its position, the
last assignment keeps its value. -/
def Json.dedupCons (k : String) (v : Json) (rest : Json) : Json :=
  match rest.lookup k with
  | some v2 => .mcons k v2 (rest.removeKey k)
  | none => .mcons k v rest

/-- Fuel needed by the recursive-descent parser to read this value back:
one unit per nesting level and per element step. -/
def Json.jsize : Json → Nat
  | .jstr _ | .jint _ | .jbool _ | .jnull => 1
  | .jarr e =>
    match e with
    | .lcons _ _ => 1 + e.jsize
    | _ => 1
  | .jobj m =>
    match m with
    | .mcons _ _ _ => 1 + m.jsize
    | _ => 1
  | .lnil => 1
  | .lcons h tl =>
    match tl with
    | .lcons _ _ => 1 + max h.jsize tl.jsize
    | _ => 1 + h.jsize
  | .mnil => 1
  | .mcons _ v tl =>
    match tl with
    | .mcons _ _ _ => 1 + max v.jsize tl.jsize
    | _ => 1 + v.jsize

/-! ### Serialization: `json.dumps` with default options -/

/-- Escape of one character inside a JSON string literal, following CPython's
`json` encoder with its default `ensure_ascii=True`: printable ASCII other than
quote and backslash is literal, the short escapes are used where they exist,
everything else becomes `\uXXXX` (a surrogate pair above 0xFFFF). -/
def escChar (c : Char) : List Char :=
  if c = '"' then ['\\', '"']
  else if c = '\\' then ['\\', '\\']
  else if c = '\n' then ['\\', 'n']
  else if c = '\r' then ['\\', 'r']
  else if c = '\t' then ['\\', 't']
  else if c = '\x08' then ['\\', 'b']
  else if c = '\x0c' then ['\\', 'f']
  else if 32 ≤ c.toNat ∧ c.toNat ≤ 126 then [c]
  else if c.toNat < 65536 then '\\' :: 'u' :: hex4Chars c.toNat
  else
    '\\' :: 'u' :: hex4Chars (55296 + (c.toNat - 65536) / 1024) ++
      '\\' :: 'u' :: hex4Chars (56320 + (c.toNat - 65536) % 1024)

def escList : List Char → List Char
  | [] => []
  | c :: cs => escChar c ++ escList cs

/-- A JSON string literal, quotes included. -/
def escString (s : String) : List Char := '"' :: escList s.data ++ ['"']

/-- The characters of `json.dumps` with the default separators
(comma-space between items, colon-space after keys). -/
def Json.dumpChars : Json → List Char
  | .jstr s => escString s
  | .jint n => intChars n
  | .jbool b => if b then ['t', 'r', 'u', 'e'] else ['f', 'a', 'l', 's', 'e']
  | .jnull => ['n', 'u', 'l', 'l']
  | .jarr e => '[' :: e.dumpChars ++ [']']
  | .jobj m => '\x7b' :: m.dumpChars ++ ['\x7d']
  | .lnil => []
  | .lcons h tl =>
    match tl with
    | .lcons _ _ => h.dumpChars ++ ',' :: ' ' :: tl.dumpChars
    | _ => h.dumpChars
  | .mnil => []
  | .mcons k v tl =>
    escString k ++ ':' :: ' ' :: v.dumpChars ++
      (match tl with
       | .mcons _ _ _ => ',' :: ' ' :: tl.dumpChars
       | _ => [])

def Json.dumps (j : Json) : String := String.mk j.dumpChars

/-! ### Parsing: `json.loads` -/

/-- JSON whitespace (the four characters the RFC allows between tokens). -/
def isJsonWs (c : Char) : Bool := c = ' ' || c = '\t' || c = '\n' || c = '\r'

def skipWs (cs : List Char) : List Char := cs.dropWhile isJsonWs

/-- Decoding of a single-character escape (`\"`, `\\`, `\/`, `\b`, `\f`,
`\n`, `\r`, `\t`); `none` for an unknown escape, which CPython refuses. -/
def escDecode (e : Char) : Option Char :=
  if e = '"' then some '"'
  else if e = '\\' then some '\\'
  else if e = '/' then some '/'
  else if e = 'b' then some '\x08'
  else if e = 'f' then some '\x0c'
  else if e = 'n' then some '\n'
  else if e = 'r' then some '\r'
  else if e = 't' then some '\t'
  else none

/-- Four hex digits, as after `\u`. -/
def readHex4 : List Char → Option (Nat × List Char)
  | a :: b :: c :: d :: rest =>
    match hex4? a b c d with
    | some n => some (n, rest)
    | none => none
  | _ => none

/-- A `\uXXXX` escape holding a low surrogate, the mandatory continuation of a
high one. -/
def readLowSurrogate : List Char → Option (Nat × List Char)
  | b1 :: u :: rest =>
    if b1 = '\\' ∧ u = 'u' then
      match readHex4 rest with
      | some (m, rest2) => if 56320 ≤ m ∧ m ≤ 57343 then some (m, rest2) else none
      | none => none
    else none
  | _ => none

/-- Body of a JSON string literal after the opening quote: returns the decoded
characters and the remainder after the closing quote.  Escapes follow CPython
`json.loads` in strict mode, except that a lone surrogate escape (which CPython
stores as a surrogate code unit, a value a Lean `Char` cannot carry) is
refused.  The fuel is structural for kernel evaluation; one unit is spent per
decoded character, so the `length + 1` every call site passes is always
enough. -/
def parseStrAux : Nat → List Char → Option (List Char × List Char)
  | 0, _ => none
  | _+1, [] => none
  | fl+1, c :: cs =>
    if c = '"' then some ([], cs)
    else if c = '\\' then
      match cs with
      | [] => none
      | e :: cs2 =>
        if e = 'u' then
          (readHex4 cs2).bind (fun q =>
            if q.1 < 55296 ∨ 57343 < q.1 then
              (parseStrAux fl q.2).map (fun p => (Char.ofNat q.1 :: p.1, p.2))
            else if q.1 ≤ 56319 then
              (readLowSurrogate q.2).bind (fun q2 =>
                (parseStrAux fl q2.2).map
                  (fun p =>
                    (Char.ofNat (65536 + (q.1 - 55296) * 1024 + (q2.1 - 56320)) :: p.1, p.2)))
            else none)
        else
          (escDecode e).bind (fun ec => (parseStrAux fl cs2).map (fun p => (ec :: p.1, p.2)))
    else if c.toNat < 32 then none
    else (parseStrAux fl cs).map (fun p => (c :: p.1, p.2))

/-- An unsigned integer token.  Python's grammar: at least one digit, no
leading zero unless the token is `0`; a following `.`/`e`/`E` would make the
token a float, which this model does not carry, so it is refused. -/
def numToken (cs : List Char) : Option (Nat × List Char) :=
  let ds := cs.takeWhile Char.isDigit
  let rest := cs.dropWhile Char.isDigit
  if ds = [] then none
  else if 1 < ds.length ∧ ds.head? = some '0' then none
  else
    match rest with
    | c :: _ => if c = '.' ∨ c = 'e' ∨ c = 'E' then none else some (digitsVal ds, rest)
    | [] => some (digitsVal ds, [])

def parseNum (cs : List Char) : Option (Json × List Char) :=
  match cs with
  | [] => none
  | c :: cs1 =>
    if c = '-' then
      match numToken cs1 with
      | some (n, rest) => some (.jint (-(n : Int)), rest)
      | none => none
    else
      match numToken (c :: cs1) with
      | some (n, rest) => some (.jint (n : Int), rest)
      | none => none

/-- Parser phase: a full value, the tail of a non-empty array, or the tail of a
non-empty object. -/
inductive PMode where
  | val
  | elems
  | members
deriving DecidableEq

/-- One dispatch step on the first non-blank character of a value.  The
continuations `pe` (array tail) and `pm` (object tail) are the recursive calls
at the next lower fuel, passed as functions so this body is not itself
recursive. -/
def parseVHead (pe pm : List Char → Option (Json × List Char)) (c : Char) (cs1 : List Char) :
    Option (Json × List Char) :=
  if c = '"' then
    (parseStrAux (cs1.length + 1) cs1).map (fun p => (Json.jstr (String.mk p.1), p.2))
  else if c = '\x7b' then
    match skipWs cs1 with
    | [] => (pm []).map (fun p => (Json.jobj p.1, p.2))
    | d :: cs2 =>
      if d = '\x7d' then some (.jobj .mnil, cs2)
      else (pm (d :: cs2)).map (fun p => (Json.jobj p.1, p.2))
  else if c = '[' then
    match skipWs cs1 with
    | [] => (pe []).map (fun p => (Json.jarr p.1, p.2))
    | d :: cs2 =>
      if d = ']' then some (.jarr .lnil, cs2)
      else (pe (d :: cs2)).map (fun p => (Json.jarr p.1, p.2))
  else if c = 't' then
    match cs1 with
    | 'r' :: 'u' :: 'e' :: r => some (.jbool true, r)
    | _ => none
  else if c = 'f' then
    match cs1 with
    | 'a' :: 'l' :: 's' :: 'e' :: r => some (.jbool false, r)
    | _ => none
  else if c = 'n' then
    match cs1 with
    | 'u' :: 'l' :: 'l' :: r => some (.jnull, r)
    | _ => none
  else if c = '-' ∨ c.isDigit then parseNum (c :: cs1)
  else none

/-- One element of an array, then either a comma and the rest or the closing
bracket.  `pv` parses the element, `pe` the remaining elements. -/
def parseEStep (pv pe : List Char → Option (Json × List Char)) (cs : List Char) :
    Option (Json × List Char) :=
  match pv cs with
  | none => none
  | some (v, r1) =>
    match skipWs r1 with
    | [] => none
    | d :: r2 =>
      if d = ',' then (pe r2).map (fun p => (Json.lcons v p.1, p.2))
      else if d = ']' then some (.lcons v .lnil, r2)
      else none

/-- One `"key": value` member, then either a comma and the rest or the
closing brace.  `pv` parses the value, `pm` the remaining members. -/
def parseMStep (pv pm : List Char → Option (Json × List Char)) (cs : List Char) :
    Option (Json × List Char) :=
  match cs with
  | [] => none
  | c :: r0 =>
    if c = '"' then
      match parseStrAux (r0.length + 1) r0 with
      | none => none
      | some (kcs, r1) =>
        match skipWs r1 with
        | [] => none
        | d :: r2 =>
          if d = ':' then
            match pv r2 with
            | none => none
            | some (v, r3) =>
              match skipWs r3 with
              | [] => none
              | d2 :: r4 =>
                if d2 = ',' then
                  (pm (skipWs r4)).map
                    (fun p => (Json.dedupCons (String.mk kcs) v p.1, p.2))
                else if d2 = '\x7d' then some (.mcons (String.mk kcs) v .mnil, r4)
                else none
          else none
    else none

/-- Recursive-descent reader for the JSON subset the model carries.  The fuel
is matched structurally so the kernel can evaluate the parser; `parseChars`
supplies fuel that the roundtrip lemmas prove sufficient for anything `dumps`
emits. -/
def parseF : Nat → PMode → List Char → Option (Json × List Char)
  | 0, _, _ => none
  | f+1, .val, cs =>
    match skipWs cs with
    | [] => none
    | c :: cs1 => parseVHead (parseF f .elems) (parseF f .members) c cs1
  | f+1, .elems, cs => parseEStep (parseF f .val) (parseF f .elems) cs
  | f+1, .members, cs => parseMStep (parseF f .val) (parseF f .members) cs

/-- The model of `json.loads`: one complete value, surrounding whitespace
allowed, trailing non-whitespace refused (Python's "Extra data" error). -/
def parseChars (cs : List Char) : Option Json :=
  match parseF (cs.length + 1) .val cs with
  | some (j, r) => if skipWs r = [] then some j else none
  | none => none

def Json.parse (s : String) : Option Json := parseChars s.data

/-! ### Python `in`, truthiness, `str` and `repr` -/

def elemHasStr (key : String) : Json → Bool
  | .lcons h tl => (h == .jstr key) || elemHasStr key tl
  | _ => false

def charsStartWith : List Char → List Char → Bool
  | [], _ => true
  | _ :: _, [] => false
  | a :: as, b :: bs => a = b && charsStartWith as bs

/-- Substring test, Python `needle in haystack` on strings. -/
def charsContain (needle : List Char) : List Char → Bool
  | [] => needle.isEmpty
  | c :: rest => charsStartWith needle (c :: rest) || charsContain needle rest

/-- Python `key in x` for a value produced by `json.loads`: key test on a
dict, membership on a list, substring test on a string; `none` models the
`TypeError` raised on numbers, booleans and `None`. -/
def pyIn (key : String) : Json → Option Bool
  | .jobj m => some (m.hasKeyB key)
  | .jarr e => some (elemHasStr key e)
  | .jstr s => some (charsContain key.data s.data)
  | _ => none

/-- Python truthiness of a value produced by `json.loads`. -/
def Json.truthy : Json → Bool
  | .jstr s => !s.isEmpty
  | .jint n => n != 0
  | .jbool b => b
  | .jnull => false
  | .jarr e =>
    match e with
    | .lcons _ _ => true
    | _ => false
  | .jobj m =>
    match m with
    | .mcons _ _ _ => true
    | _ => false
  | .lnil => false
  | .lcons _ _ => true
  | .mnil => false
  | .mcons _ _ _ => true

def pyQuoteChar (s : String) : Char :=
  if s.data.contains '\x27' ∧ ¬ s.data.contains '"' then '"' else '\x27'

/-- One character under Python `repr` of a string with chosen quote `q`.
Approximation: characters from 0x80 up are kept literal (CPython escapes the
non-printable ones among them, a Unicode-category distinction outside this
model). -/
def pyReprEsc (q : Char) (c : Char) : List Char :=
  if c = '\\' then ['\\', '\\']
  else if c = q then ['\\', q]
  else if c = '\n' then ['\\', 'n']
  else if c = '\r' then ['\\', 'r']
  else if c = '\t' then ['\\', 't']
  else if c.toNat < 32 ∨ c.toNat = 127 then
    ['\\', 'x', hexDigChar (c.toNat / 16 % 16), hexDigChar (c.toNat % 16)]
  else [c]

def pyReprEscList (q : Char) : List Char → List Char
  | [] => []
  | c :: cs => pyReprEsc q c ++ pyReprEscList q cs

/-- Python `repr` of a string: single quotes unless the text holds one and no
double quote. -/
def pyStrRepr (s : String) : List Char :=
  let q := pyQuoteChar s
  q :: pyReprEscList q s.data ++ [q]

/-- Python `repr` of a value produced by `json.loads` (which is also `str`,
hence `print`, on dicts and lists). -/
def pyRepr : Json → List Char
  | .jstr s => pyStrRepr s
  | .jint n => intChars n
  | .jbool b => if b then ['T', 'r', 'u', 'e'] else ['F', 'a', 'l', 's', 'e']
  | .jnull => ['N', 'o', 'n', 'e']
  | .jarr e => '[' :: pyRepr e ++ [']']
  | .jobj m => '\x7b' :: pyRepr m ++ ['\x7d']
  | .lnil => []
  | .lcons h tl =>
    pyRepr h ++
      (match tl with
       | .lcons _ _ => ',' :: ' ' :: pyRepr tl
       | _ => [])
  | .mnil => []
  | .mcons k v tl =>
    pyStrRepr k ++ ':' :: ' ' :: pyRepr v ++
      (match tl with
       | .mcons _ _ _ => ',' :: ' ' :: pyRepr tl
       | _ => [])

/-- Python `str()` as `print` applies it to a value produced by `json.loads`. -/
def pyStr : Json → String
  | .jstr s => s
  | .jint n => String.mk (intChars n)
  | .jbool b => if b then "True" else "False"
  | .jnull => "None"
  | j => String.mk (pyRepr j)

/-! ### The program state and the two steps -/

inductive Role where
  | human
  | ai
deriving DecidableEq

/-- A `HumanMessage`/`AIMessage`: only the role tag and the text content are
observable in this script. -/
structure Message where
  role : Role
  content : String
deriving DecidableEq

/-- The script's `AgentState` `TypedDict`: the message sequence and the `next`
control field. -/
structure AgentState where
  messages : List Message
  next : String
deriving DecidableEq

/-- langgraph's `END` sentinel. -/
def END : String := "__end__"

/-- The `say_hello` tool body: `f"Hello, \x7bname\x7d!"`. -/
def say_hello (name : String) : String := "Hello, " ++ name ++ "!"

def apologyText : String := "I encountered an error while processing your request."

def noNameText : String := "No name was provided to say hello to."

def wrongToolText : String := "I couldn\x27t execute the tool properly."

/-- An object `final_answer ↦ t`, the shape every fallback and tool result is
wrapped in before `json.dumps`. -/
def finalAnswerObj (t : String) : Json := .jobj (.mcons "final_answer" (.jstr t) .mnil)

/-- Modelled abstractly: the text `str(e)` of a CPython `json.JSONDecodeError`
(position-dependent runtime detail of the interpreter, not part of this
repository).  No theorem below observes more of the messages built from it
than the fixed template around it. -/
def jsonDecodeErrMsg : String := "Expecting value: line 1 column 1 (char 0)"

/-- Modelled abstractly: the text `str(e)` of a CPython `TypeError`, as above. -/
def typeErrMsg : String := "argument of type \x27int\x27 is not iterable"

/-- Modelled abstractly: the text `str(e)` of a CPython `IndexError`, as above. -/
def indexErrMsg : String := "list index out of range"

/-- The fallback message `call_model` appends when anything in its `try` block
fails. -/
def fallbackMsg : Message := ⟨.ai, (finalAnswerObj apologyText).dumps⟩

/-- The decision step's extraction pipeline: strip the raw response, slice
from the first opening brace through the last closing brace, `json.loads` the
slice. -/
def decisionJson (resp : String) : Option Json :=
  (extractBraces (pyStrip resp).data).bind parseChars

/-- The decision step `call_model`.  The endpoint call is the one free input:
`resp = none` models `llm.invoke` raising (caught by the `except`, like every
other failure inside the `try`); `resp = some r` models it returning `r`.
`none` as the overall result models the uncaught `IndexError` from
`messages[-1]` in the prompt f-string, which runs before the `try` block. -/
def call_model (resp : Option String) (state : AgentState) : Option AgentState :=
  match state.messages.getLast? with
  | none => none
  | some _ =>
    match resp with
    | none => some { messages := state.messages ++ [fallbackMsg], next := END }
    | some r =>
      match decisionJson r with
      | none => some { messages := state.messages ++ [fallbackMsg], next := END }
      | some parsed =>
        match pyIn "tool" parsed with
        | none => some { messages := state.messages ++ [fallbackMsg], next := END }
        | some b =>
          some { messages := state.messages ++ [⟨.ai, parsed.dumps⟩],
                 next := if b then "call_tool" else END }

/-- The tool step's `try` body as a function of the last message's text:
returns the content of the appended `AIMessage` and whether `say_hello` was
invoked.  The `say_hello(tool_input)` call site coerces its argument with
`pyStr`; the langchain tool wrapper's validation of non-string arguments is
external and version-dependent, and no claim exercises it. -/
def toolStep (content : String) : String × Bool :=
  match Json.parse content with
  | none => ((finalAnswerObj ("Error executing tool: " ++ jsonDecodeErrMsg)).dumps, false)
  | some parsed =>
    match pyIn "tool" parsed with
    | none => ((finalAnswerObj ("Error executing tool: " ++ typeErrMsg)).dumps, false)
    | some false => ((finalAnswerObj wrongToolText).dumps, false)
    | some true =>
      match parsed with
      | .jobj m =>
        if m.lookup "tool" = some (.jstr "say_hello") then
          let ti := (m.lookup "tool_input").getD (.jstr "")
          if ti.truthy then ((finalAnswerObj (say_hello (pyStr ti))).dumps, true)
          else ((finalAnswerObj noNameText).dumps, false)
        else ((finalAnswerObj wrongToolText).dumps, false)
      | _ => ((finalAnswerObj ("Error executing tool: " ++ typeErrMsg)).dumps, false)

/-- The tool step `call_tool`.  `none` models the uncaught `IndexError` from
`state['messages'][-1]`, read before the `try` block. -/
def call_tool (state : AgentState) : Option AgentState :=
  match state.messages.getLast? with
  | none => none
  | some last =>
    some { messages := state.messages ++ [⟨.ai, (toolStep last.content).1⟩], next := END }

/-- Modelled from the spec: the langgraph `StateGraph` execution engine is an
external dependency (the script only declares nodes and edges, and §4.3 of the
spec fixes the transition table, flagging the wired unconditional edges as an
open question).  Control runs `call_model`, moves to `call_tool` exactly when
the decision marked `next = 'call_tool'`, and terminates after at most that
one tool step. -/
def chain_invoke (resp : Option String) (init : AgentState) : Option AgentState :=
  match call_model resp init with
  | none => none
  | some s1 => if s1.next = "call_tool" then call_tool s1 else some s1

/-- Ghost observation of a run: whether the `say_hello` tool function was
invoked. -/
def runToolCalled (resp : Option String) (init : AgentState) : Bool :=
  match call_model resp init with
  | none => false
  | some s1 =>
    if s1.next = "call_tool" then
      match s1.messages.getLast? with
      | some last => (toolStep last.content).2
      | none => false
    else false

/-- The hardcoded initial state of the `__main__` block. -/
def initState : AgentState :=
  { messages := [⟨.human, "Please say hello to Alice"⟩], next := "" }

/-- The printing logic of the `__main__` block applied to the result state:
parse the final message; on `JSONDecodeError` print the raw text; on a parsed
value print the `final_answer` entry if `"final_answer" in parsed_message`,
else print the value itself; a `TypeError` from the `in` test or the indexing
escapes the inner `try` and is caught by the outer one. -/
def renderResult (result : AgentState) : String :=
  match result.messages.getLast? with
  | none => "An error occurred: " ++ indexErrMsg
  | some last =>
    match Json.parse last.content with
    | none => last.content
    | some parsed =>
      match pyIn "final_answer" parsed with
      | none => "An error occurred: " ++ typeErrMsg
      | some true =>
        match parsed with
        | .jobj m => pyStr ((m.lookup "final_answer").getD .jnull)
        | _ => "An error occurred: " ++ typeErrMsg
      | some false => pyStr parsed

/-- One full run of `__main__` with the endpoint behaviour `resp`, returning
the single line printed to standard output. -/
def mainPrint (resp : Option String) : String :=
  match chain_invoke resp initState with
  | none => "An error occurred: " ++ indexErrMsg
  | some result => renderResult result

/-- One full run with a responding (non-raising) endpoint. -/
def program_output (resp : String) : String := mainPrint (some resp)

/-- The text of the last message after a full run. -/
def finalMessage (resp : String) : String :=
  match chain_invoke (some resp) initState with
  | some result => ((result.messages.getLast?).getD ⟨.ai, ""⟩).content
  | none => ""

/-! ## Lemma layer 1: small facts about strings and characters -/

theorem String.mkData (l : List Char) : (String.mk l).data = l := rfl

theorem String.dataMk (s : String) : String.mk s.data = s := by
  cases s
  rfl

theorem skipWs_cons_neg {c : Char} {t : List Char} (h : isJsonWs c = false) :
    skipWs (c :: t) = c :: t := by
  simp [skipWs, List.dropWhile_cons, h]

theorem skipWs_cons_pos {c : Char} {t : List Char} (h : isJsonWs c = true) :
    skipWs (c :: t) = skipWs t := by
  simp [skipWs, List.dropWhile_cons, h]

theorem skipWs_nil : skipWs [] = [] := rfl

/-- Scalar values at the Nat level: what `Char.valid` guarantees. -/
theorem char_valid_nat (c : Char) :
    c.toNat < 55296 ∨ (57343 < c.toNat ∧ c.toNat < 1114112) := by
  have h := c.valid
  unfold UInt32.isValidChar Nat.isValidChar at h
  rcases h with h | ⟨h1, h2⟩
  · exact Or.inl (UInt32.toNat_lt_of_lt (by decide) h)
  · exact Or.inr ⟨UInt32.lt_toNat_of_lt (by decide) h1, UInt32.toNat_lt_of_lt (by decide) h2⟩

/-! ## Lemma layer 2: hexadecimal and decimal digits -/

theorem hexVal?_hexDigChar {d : Nat} (h : d < 16) : hexVal? (hexDigChar d) = some d := by
  interval_cases d <;> rfl

theorem hex4?_hex4Chars {n : Nat} (h : n < 65536) :
    hex4? (hexDigChar (n / 4096 % 16)) (hexDigChar (n / 256 % 16)) (hexDigChar (n / 16 % 16))
        (hexDigChar (n % 16)) = some n := by
  rw [hex4?, hexVal?_hexDigChar (Nat.mod_lt _ (by omega)),
    hexVal?_hexDigChar (Nat.mod_lt _ (by omega)), hexVal?_hexDigChar (Nat.mod_lt _ (by omega)),
    hexVal?_hexDigChar (Nat.mod_lt _ (by omega))]
  have heq : ((n / 4096 % 16 * 16 + n / 256 % 16) * 16 + n / 16 % 16) * 16 + n % 16 = n := by
    omega
  exact congrArg some heq

theorem digitChar_isDigit (k : Nat) : (digitChar k).isDigit = true := by
  unfold digitChar
  rcases k with _ | _ | _ | _ | _ | _ | _ | _ | _ | k <;> rfl

theorem digitVal_digitChar {k : Nat} (h : k < 10) : digitVal (digitChar k) = k := by
  interval_cases k <;> rfl

theorem digitsVal_append_one (ds : List Char) (d : Char) :
    digitsVal (ds ++ [d]) = digitsVal ds * 10 + digitVal d := by
  simp [digitsVal, List.foldl_append]

theorem natCharsAux_spec :
    ∀ f n, n < f →
      natCharsAux f n ≠ [] ∧ (∀ c ∈ natCharsAux f n, c.isDigit = true) ∧
        digitsVal (natCharsAux f n) = n ∧ (n ≠ 0 → (natCharsAux f n).head? ≠ some '0') := by
  intro f
  induction f with
  | zero => omega
  | succ f ih =>
    intro n hn
    by_cases h10 : n < 10
    · refine ⟨by simp [natCharsAux, h10], ?_, ?_, ?_⟩
      · intro c hc
        simp only [natCharsAux, if_pos h10, List.mem_singleton] at hc
        subst hc
        exact digitChar_isDigit n
      · simp only [natCharsAux, if_pos h10]
        have : digitsVal [digitChar n] = digitVal (digitChar n) := by
          simp [digitsVal]
        rw [this, digitVal_digitChar h10]
      · intro hne
        simp only [natCharsAux, if_pos h10, List.head?_cons]
        intro hcon
        have h0 : digitChar n = '0' := Option.some.inj hcon
        interval_cases n
        · exact hne rfl
        all_goals exact absurd h0 (by decide)
    · have hd : n / 10 < f := by omega
      obtain ⟨hne, hdig, hval, hhd⟩ := ih (n / 10) hd
      simp only [natCharsAux, if_neg h10]
      refine ⟨by simp, ?_, ?_, ?_⟩
      · intro c hc
        rcases List.mem_append.mp hc with hc | hc
        · exact hdig c hc
        · rw [List.mem_singleton.mp hc]
          exact digitChar_isDigit _
      · rw [digitsVal_append_one, hval, digitVal_digitChar (Nat.mod_lt _ (by omega))]
        omega
      · intro _
        have hzero : n / 10 ≠ 0 := by omega
        rcases hl : natCharsAux f (n / 10) with _ | ⟨c, t⟩
        · exact absurd hl hne
        · rw [hl] at hhd
          simp only [List.cons_append, List.head?_cons]
          simp only [List.head?_cons] at hhd
          intro hcon
          exact (hhd hzero) hcon

theorem natChars_spec (n : Nat) :
    natChars n ≠ [] ∧ (∀ c ∈ natChars n, c.isDigit = true) ∧ digitsVal (natChars n) = n ∧
      (n ≠ 0 → (natChars n).head? ≠ some '0') :=
  natCharsAux_spec (n + 1) n (Nat.lt_succ_self n)

/-! ## Lemma layer 3: the string-escape roundtrip -/

theorem readHex4_hex4Chars {n : Nat} (h : n < 65536) (t : List Char) :
    readHex4 (hex4Chars n ++ t) = some (n, t) := by
  simp only [hex4Chars, List.cons_append, List.nil_append, readHex4]
  rw [hex4?_hex4Chars h]

theorem readLowSurrogate_emit {m : Nat} (h1 : 56320 ≤ m) (h2 : m ≤ 57343) (t : List Char) :
    readLowSurrogate ('\\' :: 'u' :: (hex4Chars m ++ t)) = some (m, t) := by
  simp only [readLowSurrogate, if_pos (⟨rfl, rfl⟩ : ('\\' : Char) = '\\' ∧ ('u' : Char) = 'u')]
  rw [readHex4_hex4Chars (by omega) t]
  simp [h1, h2]

/-- Reading back an encoded surrogate pair, stated over abstract code units so
the rewrites stay small. -/
theorem parseStrAux_u_pair (fl : Nat) (hi lo : Nat) (hhi0 : hi < 65536)
    (hhi1 : ¬(hi < 55296 ∨ 57343 < hi)) (hhi2 : hi ≤ 56319)
    (hlo1 : 56320 ≤ lo) (hlo2 : lo ≤ 57343) (t : List Char) :
    parseStrAux (fl + 1)
        ('\\' :: 'u' :: (hex4Chars hi ++ ('\\' :: 'u' :: (hex4Chars lo ++ t)))) =
      (parseStrAux fl t).map
        (fun p => (Char.ofNat (65536 + (hi - 55296) * 1024 + (lo - 56320)) :: p.1, p.2)) := by
  have e1 : ¬('\\' : Char) = '"' := by decide
  simp only [parseStrAux, if_neg e1, if_pos (rfl : ('\\' : Char) = '\\'),
    if_pos (rfl : ('u' : Char) = 'u'), readHex4_hex4Chars hhi0, Option.some_bind, if_true,
    if_neg hhi1, if_pos hhi2, readLowSurrogate_emit hlo1 hlo2]

/-- Reading back an encoded `\uXXXX` escape below the surrogate range, again
over an abstract code unit. -/
theorem parseStrAux_u_single (fl : Nat) (n : Nat) (h0 : n < 65536)
    (h1 : n < 55296 ∨ 57343 < n) (t : List Char) :
    parseStrAux (fl + 1) ('\\' :: 'u' :: (hex4Chars n ++ t)) =
      (parseStrAux fl t).map (fun p => (Char.ofNat n :: p.1, p.2)) := by
  have e1 : ¬('\\' : Char) = '"' := by decide
  simp only [parseStrAux, if_neg e1, if_pos (rfl : ('\\' : Char) = '\\'),
    if_pos (rfl : ('u' : Char) = 'u'), readHex4_hex4Chars h0, Option.some_bind, if_true,
    if_pos h1]

theorem parseStrAux_escChar (c : Char) (fl : Nat) (t : List Char) :
    parseStrAux (fl + 1) (escChar c ++ t) =
      (parseStrAux fl t).map (fun p => (c :: p.1, p.2)) := by
  by_cases h1 : c = '"'
  · subst h1; rfl
  by_cases h2 : c = '\\'
  · subst h2; rfl
  by_cases h3 : c = '\n'
  · subst h3; rfl
  by_cases h4 : c = '\r'
  · subst h4; rfl
  by_cases h5 : c = '\t'
  · subst h5; rfl
  by_cases h6 : c = '\x08'
  · subst h6; rfl
  by_cases h7 : c = '\x0c'
  · subst h7; rfl
  by_cases h8 : 32 ≤ c.toNat ∧ c.toNat ≤ 126
  · have h32 : ¬c.toNat < 32 := by omega
    simp only [escChar, if_neg h1, if_neg h2, if_neg h3, if_neg h4, if_neg h5, if_neg h6,
      if_neg h7, if_pos h8, List.cons_append, List.nil_append, parseStrAux, if_neg h32]
  by_cases h9 : c.toNat < 65536
  · have hval := char_valid_nat c
    simp only [escChar, if_neg h1, if_neg h2, if_neg h3, if_neg h4, if_neg h5, if_neg h6,
      if_neg h7, if_neg h8, if_pos h9, List.cons_append, List.append_assoc]
    rw [parseStrAux_u_single fl c.toNat h9 (by omega) t, Char.ofNat_toNat]
  · -- astral plane: the encoder emits a surrogate pair
    have hval := char_valid_nat c
    have hge : 65536 ≤ c.toNat := by omega
    simp only [escChar, if_neg h1, if_neg h2, if_neg h3, if_neg h4, if_neg h5, if_neg h6,
      if_neg h7, if_neg h8, if_neg h9, List.cons_append, List.append_assoc]
    rw [parseStrAux_u_pair fl _ _ (by omega) (by omega) (by omega) (by omega) (by omega) t]
    have harith : 65536 + (55296 + (c.toNat - 65536) / 1024 - 55296) * 1024 +
        (56320 + (c.toNat - 65536) % 1024 - 56320) = c.toNat := by omega
    rw [harith, Char.ofNat_toNat]

theorem parseStrAux_escList :
    ∀ (l : List Char) (fl : Nat) (rest : List Char), l.length < fl →
      parseStrAux fl (escList l ++ '"' :: rest) = some (l, rest) := by
  intro l
  induction l with
  | nil =>
    intro fl rest hf
    obtain ⟨f, rfl⟩ : ∃ f, fl = f + 1 := ⟨fl - 1, by omega⟩
    rfl
  | cons c l ih =>
    intro fl rest hf
    obtain ⟨f, rfl⟩ : ∃ f, fl = f + 1 := ⟨fl - 1, by omega⟩
    simp only [escList, List.append_assoc]
    rw [parseStrAux_escChar, ih f rest (by simp at hf; omega)]
    rfl

/-! ## Lemma layer 4: the number-token roundtrip -/

/-- What may legally follow a serialized number so that the token ends there:
nothing, or a character that is neither a digit nor `.`/`e`/`E`.  Everything
`dumps` places after a number (comma, closing bracket, closing brace) and the
empty top-level tail satisfy this. -/
def numDelim (rest : List Char) : Prop :=
  ∀ c, rest.head? = some c → c.isDigit = false ∧ c ≠ '.' ∧ c ≠ 'e' ∧ c ≠ 'E'

theorem numDelim_nil : numDelim [] := by
  intro c hc
  simp at hc

theorem takeWhile_digits {ds rest : List Char} (hds : ∀ c ∈ ds, c.isDigit = true)
    (hrest : ∀ c, rest.head? = some c → c.isDigit = false) :
    (ds ++ rest).takeWhile Char.isDigit = ds ∧ (ds ++ rest).dropWhile Char.isDigit = rest := by
  induction ds with
  | nil =>
    simp only [List.nil_append]
    cases rest with
    | nil => exact ⟨rfl, rfl⟩
    | cons c r =>
      have hc := hrest c rfl
      simp [List.takeWhile_cons, List.dropWhile_cons, hc]
  | cons d ds ih =>
    have hd : d.isDigit = true := hds d (List.mem_cons_self d ds)
    obtain ⟨h1, h2⟩ := ih (fun c hc => hds c (List.mem_cons_of_mem d hc))
    simp [List.takeWhile_cons, List.dropWhile_cons, hd, h1, h2]

theorem numToken_natChars (n : Nat) {rest : List Char} (h : numDelim rest) :
    numToken (natChars n ++ rest) = some (n, rest) := by
  obtain ⟨hne, hdig, hval, hhd⟩ := natChars_spec n
  obtain ⟨ht, hdr⟩ := takeWhile_digits hdig (fun c hc => (h c hc).1)
  rw [numToken]
  simp only [ht, hdr]
  rw [if_neg hne]
  have hlead : ¬(1 < (natChars n).length ∧ (natChars n).head? = some '0') := by
    by_cases h10 : n < 10
    · intro ⟨hl, _⟩
      have : natChars n = [digitChar n] := by
        unfold natChars natCharsAux
        simp [h10]
      rw [this] at hl
      simp at hl
    · intro ⟨_, hz⟩
      exact hhd (by omega) hz
  rw [if_neg hlead]
  cases hr : rest with
  | nil =>
    show some (digitsVal (natChars n), ([] : List Char)) = some (n, [])
    rw [hval]
  | cons c r =>
    have hc := h c (by rw [hr]; rfl)
    show (if c = '.' ∨ c = 'e' ∨ c = 'E' then none
      else some (digitsVal (natChars n), c :: r)) = some (n, c :: r)
    rw [if_neg (by
      intro hor
      rcases hor with h' | h' | h'
      · exact hc.2.1 h'
      · exact hc.2.2.1 h'
      · exact hc.2.2.2 h')]
    rw [hval]

theorem isDigit_head_ne {c : Char} (hd : c.isDigit = true) :
    isJsonWs c = false ∧ c ≠ ']' ∧ c ≠ '\x7d' ∧ c ≠ '"' ∧ c ≠ '\x7b' ∧ c ≠ '[' ∧
      c ≠ 't' ∧ c ≠ 'f' ∧ c ≠ 'n' ∧ c ≠ '-' := by
  have w1 : c ≠ ' ' := fun h => by subst h; exact absurd hd (by decide)
  have w2 : c ≠ '\t' := fun h => by subst h; exact absurd hd (by decide)
  have w3 : c ≠ '\n' := fun h => by subst h; exact absurd hd (by decide)
  have w4 : c ≠ '\r' := fun h => by subst h; exact absurd hd (by decide)
  refine ⟨?_, ?_, ?_, ?_, ?_, ?_, ?_, ?_, ?_, ?_⟩
  · simp [isJsonWs, w1, w2, w3, w4]
  all_goals intro h; subst h; exact absurd hd (by decide)

theorem parseNum_intChars (n : Int) {rest : List Char} (h : numDelim rest) :
    parseNum (intChars n ++ rest) = some (.jint n, rest) := by
  by_cases hn : n < 0
  · simp only [intChars, if_pos hn, List.cons_append]
    rw [parseNum]
    rw [if_pos rfl, numToken_natChars n.natAbs h]
    show some (Json.jint (-((n.natAbs : Nat) : Int)), rest) = some (Json.jint n, rest)
    have : -((n.natAbs : Nat) : Int) = n := by omega
    rw [this]
  · simp only [intChars, if_neg hn]
    obtain ⟨hne, hdig, _, _⟩ := natChars_spec n.toNat
    rcases hl : natChars n.toNat with _ | ⟨d, t⟩
    · exact absurd hl hne
    have hd : d.isDigit = true := hdig d (by rw [hl]; exact List.mem_cons_self d t)
    have hdm : d ≠ '-' := (isDigit_head_ne hd).2.2.2.2.2.2.2.2.2
    simp only [List.cons_append]
    rw [parseNum]
    rw [if_neg hdm]
    have : d :: (t ++ rest) = natChars n.toNat ++ rest := by rw [hl]; rfl
    rw [this, numToken_natChars n.toNat h]
    show some (Json.jint ((n.toNat : Nat) : Int), rest) = some (Json.jint n, rest)
    have h2 : ((n.toNat : Nat) : Int) = n := by omega
    rw [h2]

/-! ## Lemma layer 5: heads of serialized values and the fuel bound -/

theorem dumpChars_head (j : Json) (hv : j.isVal = true) :
    ∃ c t, j.dumpChars = c :: t ∧
      (c = '"' ∨ c = '\x7b' ∨ c = '[' ∨ c = 't' ∨ c = 'f' ∨ c = 'n' ∨ c = '-' ∨
        c.isDigit = true) := by
  cases j with
  | jstr s => exact ⟨'"', _, rfl, Or.inl rfl⟩
  | jint n =>
    by_cases hn : n < 0
    · refine ⟨'-', natChars n.natAbs, ?_, by simp⟩
      simp [Json.dumpChars, intChars, hn]
    · obtain ⟨hne, hdig, _, _⟩ := natChars_spec n.toNat
      rcases hl : natChars n.toNat with _ | ⟨d, t⟩
      · exact absurd hl hne
      refine ⟨d, t, ?_, Or.inr (Or.inr (Or.inr (Or.inr (Or.inr (Or.inr (Or.inr
        (hdig d (by rw [hl]; exact List.mem_cons_self d t))))))))⟩
      simp [Json.dumpChars, intChars, hn, hl]
  | jbool b =>
    cases b
    · exact ⟨'f', _, rfl, by simp⟩
    · exact ⟨'t', _, rfl, by simp⟩
  | jnull => exact ⟨'n', _, rfl, by simp⟩
  | jarr e => exact ⟨'[', _, rfl, by simp⟩
  | jobj m => exact ⟨'\x7b', _, rfl, by simp⟩
  | lnil => exact absurd hv (by simp [Json.isVal])
  | lcons h tl => exact absurd hv (by simp [Json.isVal])
  | mnil => exact absurd hv (by simp [Json.isVal])
  | mcons k v tl => exact absurd hv (by simp [Json.isVal])

/-- The head of a serialized value is not whitespace and closes nothing. -/
theorem dumpChars_head_facts (j : Json) (hv : j.isVal = true) :
    ∃ c t, j.dumpChars = c :: t ∧ isJsonWs c = false ∧ c ≠ ']' ∧ c ≠ '\x7d' := by
  obtain ⟨c, t, hct, hc⟩ := dumpChars_head j hv
  refine ⟨c, t, hct, ?_⟩
  rcases hc with h | h | h | h | h | h | h | h
  all_goals first
  | (subst h; exact ⟨by decide, by decide, by decide⟩)
  | (obtain ⟨w, n1, n2, _⟩ := isDigit_head_ne h; exact ⟨w, n1, n2⟩)

theorem skipWs_dump (j : Json) (hv : j.isVal = true) (X : List Char) :
    skipWs (j.dumpChars ++ X) = j.dumpChars ++ X := by
  obtain ⟨c, t, hct, hws, _, _⟩ := dumpChars_head_facts j hv
  rw [hct, List.cons_append, skipWs_cons_neg hws]

theorem jsize_le (j : Json) :
    (j.isVal = true → j.wf = true → j.jsize ≤ j.dumpChars.length + 1) ∧
    (j.chainL = true → j.wf = true → j.jsize ≤ j.dumpChars.length + 2) ∧
    (j.chainM = true → j.wf = true → j.jsize ≤ j.dumpChars.length + 2) := by
  induction j with
  | jstr s =>
    refine ⟨fun _ _ => by simp [Json.jsize], fun hc => ?_, fun hc => ?_⟩ <;>
      simp [Json.chainL, Json.chainM] at hc
  | jint n =>
    refine ⟨fun _ _ => by simp [Json.jsize], fun hc => ?_, fun hc => ?_⟩ <;>
      simp [Json.chainL, Json.chainM] at hc
  | jbool b =>
    refine ⟨fun _ _ => by simp [Json.jsize], fun hc => ?_, fun hc => ?_⟩ <;>
      simp [Json.chainL, Json.chainM] at hc
  | jnull =>
    refine ⟨fun _ _ => by simp [Json.jsize], fun hc => ?_, fun hc => ?_⟩ <;>
      simp [Json.chainL, Json.chainM] at hc
  | jarr e ih =>
    refine ⟨fun hv hw => ?_, fun hc => ?_, fun hc => ?_⟩
    · simp only [Json.wf, Bool.and_eq_true] at hw
      clear hv
      cases e
      case lcons =>
        rename_i h tl
        have hs := ih.2.1 hw.1 hw.2
        have e1 : (Json.jarr (Json.lcons h tl)).jsize = 1 + (Json.lcons h tl).jsize := rfl
        have e2 : (Json.jarr (Json.lcons h tl)).dumpChars =
            '[' :: (Json.lcons h tl).dumpChars ++ [']'] := rfl
        rw [e1, e2]
        simp only [List.cons_append, List.length_cons, List.length_append,
          List.length_singleton]
        omega
      case lnil => simp [Json.jsize]
      all_goals simp [Json.chainL] at hw
    all_goals simp [Json.chainL, Json.chainM] at hc
  | jobj m ih =>
    refine ⟨fun hv hw => ?_, fun hc => ?_, fun hc => ?_⟩
    · simp only [Json.wf, Bool.and_eq_true] at hw
      clear hv
      cases m
      case mcons =>
        rename_i k v tl
        have hs := ih.2.2 hw.1.1 hw.2
        have e1 : (Json.jobj (Json.mcons k v tl)).jsize = 1 + (Json.mcons k v tl).jsize := rfl
        have e2 : (Json.jobj (Json.mcons k v tl)).dumpChars =
            '\x7b' :: (Json.mcons k v tl).dumpChars ++ ['\x7d'] := rfl
        rw [e1, e2]
        simp only [List.cons_append, List.length_cons, List.length_append,
          List.length_singleton]
        omega
      case mnil => simp [Json.jsize]
      all_goals simp [Json.chainM] at hw
    all_goals simp [Json.chainL, Json.chainM] at hc
  | lnil =>
    refine ⟨fun hv => ?_, fun _ _ => by simp [Json.jsize, Json.dumpChars], fun hc => ?_⟩
    · simp [Json.isVal] at hv
    · simp [Json.chainM] at hc
  | lcons h tl ihh ihtl =>
    refine ⟨fun hv => ?_, fun hc hw => ?_, fun hc => ?_⟩
    · simp [Json.isVal] at hv
    · simp only [Json.chainL, Bool.and_eq_true] at hc
      simp only [Json.wf, Bool.and_eq_true] at hw
      have hh := ihh.1 hc.1 hw.1
      cases tl
      case lcons =>
        rename_i th tt
        have ht := ihtl.2.1 hc.2 hw.2
        have e1 : (Json.lcons h (Json.lcons th tt)).jsize =
            1 + max h.jsize (Json.lcons th tt).jsize := rfl
        have e2 : (Json.lcons h (Json.lcons th tt)).dumpChars =
            h.dumpChars ++ ',' :: ' ' :: (Json.lcons th tt).dumpChars := rfl
        rw [e1, e2]
        simp only [List.length_append, List.length_cons]
        omega
      case lnil =>
        have e1 : (Json.lcons h Json.lnil).jsize = 1 + h.jsize := rfl
        have e2 : (Json.lcons h Json.lnil).dumpChars = h.dumpChars := rfl
        rw [e1, e2]
        omega
      all_goals simp [Json.chainL] at hc
    · simp [Json.chainM] at hc
  | mnil =>
    refine ⟨fun hv => ?_, fun hc => ?_, fun _ _ => by simp [Json.jsize, Json.dumpChars]⟩
    · simp [Json.isVal] at hv
    · simp [Json.chainL] at hc
  | mcons k v tl ihv ihtl =>
    refine ⟨fun hv => ?_, fun hc => ?_, fun hc hw => ?_⟩
    · simp [Json.isVal] at hv
    · simp [Json.chainL] at hc
    · simp only [Json.chainM, Bool.and_eq_true] at hc
      simp only [Json.wf, Bool.and_eq_true] at hw
      have hh := ihv.1 hc.1 hw.1
      cases tl
      case mcons =>
        rename_i tk tv tt
        have ht := ihtl.2.2 hc.2 hw.2
        have e1 : (Json.mcons k v (Json.mcons tk tv tt)).jsize =
            1 + max v.jsize (Json.mcons tk tv tt).jsize := rfl
        have e2 : (Json.mcons k v (Json.mcons tk tv tt)).dumpChars =
            escString k ++ ':' :: ' ' :: v.dumpChars ++
              ',' :: ' ' :: (Json.mcons tk tv tt).dumpChars := rfl
        rw [e1, e2]
        simp only [List.length_append, List.length_cons]
        omega
      case mnil =>
        have e1 : (Json.mcons k v Json.mnil).jsize = 1 + v.jsize := rfl
        have e2 : (Json.mcons k v Json.mnil).dumpChars =
            escString k ++ ':' :: ' ' :: v.dumpChars ++ [] := rfl
        rw [e1, e2]
        simp only [List.length_append, List.length_cons, List.length_nil]
        omega
      all_goals simp [Json.chainM] at hc

/-! ## Lemma layer 6: helpers for the parse-of-dumps roundtrip -/

theorem escChar_length_pos (c : Char) : 1 ≤ (escChar c).length := by
  unfold escChar
  split_ifs <;> simp [hex4Chars]

theorem escList_length_ge (l : List Char) : l.length ≤ (escList l).length := by
  induction l with
  | nil => simp [escList]
  | cons c t ih =>
    have := escChar_length_pos c
    simp only [escList, List.length_cons, List.length_append]
    omega

theorem jsize_pos (j : Json) : 1 ≤ j.jsize := by
  cases j <;> simp only [Json.jsize] <;> first
  | omega
  | (split <;> omega)

theorem numDelim_cons {c : Char} {X : List Char} (h1 : c.isDigit = false) (h2 : c ≠ '.')
    (h3 : c ≠ 'e') (h4 : c ≠ 'E') : numDelim (c :: X) := by
  intro c' hc'
  have : c' = c := (by simpa using hc' : c = c').symm
  subst this
  exact ⟨h1, h2, h3, h4⟩

theorem lookup_eq_none_of_not_contains (m : Json) (k : String)
    (h : m.keys.contains k = false) : m.lookup k = none := by
  induction m with
  | mcons k' v tl ihv ihtl =>
    simp only [Json.keys, List.contains_cons, Bool.or_eq_false_iff] at h
    have hne : k' ≠ k := by
      intro he
      subst he
      simp at h
    rw [Json.lookup, if_neg hne]
    exact ihtl h.2
  | jstr s => rfl
  | jint n => rfl
  | jbool b => rfl
  | jnull => rfl
  | jarr e _ => rfl
  | jobj m _ => rfl
  | lnil => rfl
  | lcons h1 t1 _ _ => rfl
  | mnil => rfl

/-! ## Lemma layer 7a: evaluation steps of the parser -/

theorem parseF_val_head (f : Nat) (cs cs1 : List Char) (c : Char) (h : skipWs cs = c :: cs1) :
    parseF (f+1) .val cs = parseVHead (parseF f .elems) (parseF f .members) c cs1 := by
  rw [parseF, h]

theorem parseF_elems_eq (f : Nat) (cs : List Char) :
    parseF (f+1) .elems cs = parseEStep (parseF f .val) (parseF f .elems) cs := by
  rw [parseF]

theorem parseF_members_eq (f : Nat) (cs : List Char) :
    parseF (f+1) .members cs = parseMStep (parseF f .val) (parseF f .members) cs := by
  rw [parseF]

theorem parseVHead_quote (pe pm : List Char → Option (Json × List Char)) (cs1 : List Char) :
    parseVHead pe pm '"' cs1 =
      (parseStrAux (cs1.length + 1) cs1).map
        (fun p => (Json.jstr (String.mk p.1), p.2)) := rfl

theorem parseVHead_obrace (pe pm : List Char → Option (Json × List Char)) (cs1 cs2 : List Char)
    (d : Char) (h2 : skipWs cs1 = d :: cs2) (hd : d ≠ '\x7d') :
    parseVHead pe pm '\x7b' cs1 =
      (pm (d :: cs2)).map (fun p => (Json.jobj p.1, p.2)) := by
  unfold parseVHead
  rw [if_neg (by decide : ¬('\x7b' : Char) = '"'), if_pos (rfl : ('\x7b' : Char) = '\x7b'), h2]
  show (if d = '\x7d' then some (Json.jobj Json.mnil, cs2)
    else (pm (d :: cs2)).map (fun p => (Json.jobj p.1, p.2))) = _
  rw [if_neg hd]

theorem parseVHead_obrace_close (pe pm : List Char → Option (Json × List Char))
    (cs1 cs2 : List Char) (h2 : skipWs cs1 = '\x7d' :: cs2) :
    parseVHead pe pm '\x7b' cs1 = some (.jobj .mnil, cs2) := by
  unfold parseVHead
  rw [if_neg (by decide : ¬('\x7b' : Char) = '"'), if_pos (rfl : ('\x7b' : Char) = '\x7b'), h2]
  rfl

theorem parseVHead_obrack (pe pm : List Char → Option (Json × List Char)) (cs1 cs2 : List Char)
    (d : Char) (h2 : skipWs cs1 = d :: cs2) (hd : d ≠ ']') :
    parseVHead pe pm '[' cs1 =
      (pe (d :: cs2)).map (fun p => (Json.jarr p.1, p.2)) := by
  unfold parseVHead
  rw [if_neg (by decide : ¬('[' : Char) = '"'), if_neg (by decide : ¬('[' : Char) = '\x7b'),
    if_pos (rfl : ('[' : Char) = '['), h2]
  show (if d = ']' then some (Json.jarr Json.lnil, cs2)
    else (pe (d :: cs2)).map (fun p => (Json.jarr p.1, p.2))) = _
  rw [if_neg hd]

theorem parseVHead_obrack_close (pe pm : List Char → Option (Json × List Char))
    (cs1 cs2 : List Char) (h2 : skipWs cs1 = ']' :: cs2) :
    parseVHead pe pm '[' cs1 = some (.jarr .lnil, cs2) := by
  unfold parseVHead
  rw [if_neg (by decide : ¬('[' : Char) = '"'), if_neg (by decide : ¬('[' : Char) = '\x7b'),
    if_pos (rfl : ('[' : Char) = '['), h2]
  rfl

theorem parseVHead_true (pe pm : List Char → Option (Json × List Char)) (r : List Char) :
    parseVHead pe pm 't' ('r' :: 'u' :: 'e' :: r) = some (.jbool true, r) := rfl

theorem parseVHead_false (pe pm : List Char → Option (Json × List Char)) (r : List Char) :
    parseVHead pe pm 'f' ('a' :: 'l' :: 's' :: 'e' :: r) = some (.jbool false, r) := rfl

theorem parseVHead_null (pe pm : List Char → Option (Json × List Char)) (r : List Char) :
    parseVHead pe pm 'n' ('u' :: 'l' :: 'l' :: r) = some (.jnull, r) := rfl

theorem parseVHead_num (pe pm : List Char → Option (Json × List Char)) (cs1 : List Char)
    (c : Char) (hc : c = '-' ∨ c.isDigit = true) :
    parseVHead pe pm c cs1 = parseNum (c :: cs1) := by
  have n1 : c ≠ '"' := by
    rcases hc with h | h
    · subst h; decide
    · exact (isDigit_head_ne h).2.2.2.1
  have n2 : c ≠ '\x7b' := by
    rcases hc with h | h
    · subst h; decide
    · exact (isDigit_head_ne h).2.2.2.2.1
  have n3 : c ≠ '[' := by
    rcases hc with h | h
    · subst h; decide
    · exact (isDigit_head_ne h).2.2.2.2.2.1
  have n4 : c ≠ 't' := by
    rcases hc with h | h
    · subst h; decide
    · exact (isDigit_head_ne h).2.2.2.2.2.2.1
  have n5 : c ≠ 'f' := by
    rcases hc with h | h
    · subst h; decide
    · exact (isDigit_head_ne h).2.2.2.2.2.2.2.1
  have n6 : c ≠ 'n' := by
    rcases hc with h | h
    · subst h; decide
    · exact (isDigit_head_ne h).2.2.2.2.2.2.2.2.1
  unfold parseVHead
  rw [if_neg n1, if_neg n2, if_neg n3, if_neg n4, if_neg n5, if_neg n6, if_pos hc]

theorem parseEStep_comma (pv pe : List Char → Option (Json × List Char)) (cs r1 r2 : List Char)
    (v : Json) (hval : pv cs = some (v, r1)) (h2 : skipWs r1 = ',' :: r2) :
    parseEStep pv pe cs = (pe r2).map (fun p => (Json.lcons v p.1, p.2)) := by
  unfold parseEStep
  rw [hval]
  show (match skipWs r1 with
    | [] => none
    | d :: r2 =>
      if d = ',' then (pe r2).map (fun (p : Json × List Char) => (Json.lcons v p.1, p.2))
      else if d = ']' then some (.lcons v .lnil, r2)
      else none) = _
  rw [h2]
  rfl

theorem parseEStep_close (pv pe : List Char → Option (Json × List Char)) (cs r1 r2 : List Char)
    (v : Json) (hval : pv cs = some (v, r1)) (h2 : skipWs r1 = ']' :: r2) :
    parseEStep pv pe cs = some (.lcons v .lnil, r2) := by
  unfold parseEStep
  rw [hval]
  show (match skipWs r1 with
    | [] => none
    | d :: r2 =>
      if d = ',' then (pe r2).map (fun (p : Json × List Char) => (Json.lcons v p.1, p.2))
      else if d = ']' then some (.lcons v .lnil, r2)
      else none) = _
  rw [h2]
  rfl

theorem parseMStep_comma (pv pm : List Char → Option (Json × List Char))
    (r0 r1 r2 r3 r4 kcs : List Char) (v : Json)
    (hk : parseStrAux (r0.length + 1) r0 = some (kcs, r1)) (h1 : skipWs r1 = ':' :: r2)
    (hv : pv r2 = some (v, r3)) (h3 : skipWs r3 = ',' :: r4) :
    parseMStep pv pm ('"' :: r0) =
      (pm (skipWs r4)).map (fun p => (Json.dedupCons (String.mk kcs) v p.1, p.2)) := by
  unfold parseMStep
  show (match parseStrAux (r0.length + 1) r0 with
    | none => none
    | some (kcs, r1) =>
      match skipWs r1 with
      | [] => none
      | d :: r2 =>
        if d = ':' then
          match pv r2 with
          | none => none
          | some (v, r3) =>
            match skipWs r3 with
            | [] => none
            | d2 :: r4 =>
              if d2 = ',' then
                (pm (skipWs r4)).map
                  (fun (p : Json × List Char) => (Json.dedupCons (String.mk kcs) v p.1, p.2))
              else if d2 = '\x7d' then some (.mcons (String.mk kcs) v .mnil, r4)
              else none
        else none) = _
  rw [hk]
  show (match skipWs r1 with
    | [] => none
    | d :: r2 =>
      if d = ':' then
        match pv r2 with
        | none => none
        | some (v, r3) =>
          match skipWs r3 with
          | [] => none
          | d2 :: r4 =>
            if d2 = ',' then
              (pm (skipWs r4)).map
                (fun (p : Json × List Char) => (Json.dedupCons (String.mk kcs) v p.1, p.2))
            else if d2 = '\x7d' then some (.mcons (String.mk kcs) v .mnil, r4)
            else none
      else none) = _
  rw [h1]
  show (match pv r2 with
    | none => none
    | some (v, r3) =>
      match skipWs r3 with
      | [] => none
      | d2 :: r4 =>
        if d2 = ',' then
          (pm (skipWs r4)).map
            (fun (p : Json × List Char) => (Json.dedupCons (String.mk kcs) v p.1, p.2))
        else if d2 = '\x7d' then some (.mcons (String.mk kcs) v .mnil, r4)
        else none) = _
  rw [hv]
  show (match skipWs r3 with
    | [] => none
    | d2 :: r4 =>
      if d2 = ',' then
        (pm (skipWs r4)).map
          (fun (p : Json × List Char) => (Json.dedupCons (String.mk kcs) v p.1, p.2))
      else if d2 = '\x7d' then some (.mcons (String.mk kcs) v .mnil, r4)
      else none) = _
  rw [h3]
  rfl

theorem parseMStep_close (pv pm : List Char → Option (Json × List Char))
    (r0 r1 r2 r3 r4 kcs : List Char) (v : Json)
    (hk : parseStrAux (r0.length + 1) r0 = some (kcs, r1)) (h1 : skipWs r1 = ':' :: r2)
    (hv : pv r2 = some (v, r3)) (h3 : skipWs r3 = '\x7d' :: r4) :
    parseMStep pv pm ('"' :: r0) = some (.mcons (String.mk kcs) v .mnil, r4) := by
  unfold parseMStep
  show (match parseStrAux (r0.length + 1) r0 with
    | none => none
    | some (kcs, r1) =>
      match skipWs r1 with
      | [] => none
      | d :: r2 =>
        if d = ':' then
          match pv r2 with
          | none => none
          | some (v, r3) =>
            match skipWs r3 with
            | [] => none
            | d2 :: r4 =>
              if d2 = ',' then
                (pm (skipWs r4)).map
                  (fun (p : Json × List Char) => (Json.dedupCons (String.mk kcs) v p.1, p.2))
              else if d2 = '\x7d' then some (.mcons (String.mk kcs) v .mnil, r4)
              else none
        else none) = _
  rw [hk]
  show (match skipWs r1 with
    | [] => none
    | d :: r2 =>
      if d = ':' then
        match pv r2 with
        | none => none
        | some (v, r3) =>
          match skipWs r3 with
          | [] => none
          | d2 :: r4 =>
            if d2 = ',' then
              (pm (skipWs r4)).map
                (fun (p : Json × List Char) => (Json.dedupCons (String.mk kcs) v p.1, p.2))
            else if d2 = '\x7d' then some (.mcons (String.mk kcs) v .mnil, r4)
            else none
      else none) = _
  rw [h1]
  show (match pv r2 with
    | none => none
    | some (v, r3) =>
      match skipWs r3 with
      | [] => none
      | d2 :: r4 =>
        if d2 = ',' then
          (pm (skipWs r4)).map
            (fun (p : Json × List Char) => (Json.dedupCons (String.mk kcs) v p.1, p.2))
        else if d2 = '\x7d' then some (.mcons (String.mk kcs) v .mnil, r4)
        else none) = _
  rw [hv]
  show (match skipWs r3 with
    | [] => none
    | d2 :: r4 =>
      if d2 = ',' then
        (pm (skipWs r4)).map
          (fun (p : Json × List Char) => (Json.dedupCons (String.mk kcs) v p.1, p.2))
      else if d2 = '\x7d' then some (.mcons (String.mk kcs) v .mnil, r4)
      else none) = _
  rw [h3]
  rfl


/-! ## Lemma layer 7b: parsing reads back what dumps wrote -/

theorem chainL_dump_head (h tl : Json) (hv : h.isVal = true) :
    ∃ c t, (Json.lcons h tl).dumpChars = c :: t ∧ isJsonWs c = false ∧ c ≠ ']' ∧ c ≠ '\x7d' := by
  obtain ⟨c0, t0, hct0, hf1, hf2, hf3⟩ := dumpChars_head_facts h hv
  cases tl
  case lcons a b =>
    refine ⟨c0, t0 ++ ',' :: ' ' :: (Json.lcons a b).dumpChars, ?_, hf1, hf2, hf3⟩
    show h.dumpChars ++ ',' :: ' ' :: (Json.lcons a b).dumpChars = _
    rw [hct0]
    rfl
  all_goals exact ⟨c0, t0, hct0, hf1, hf2, hf3⟩

theorem mchain_dump_head (k : String) (v tl : Json) :
    (Json.mcons k v tl).dumpChars =
      '"' :: (escList k.data ++ '"' ::
        (':' :: ' ' :: (v.dumpChars ++
          (match tl with
           | .mcons _ _ _ => ',' :: ' ' :: tl.dumpChars
           | _ => [])))) := by
  show escString k ++ ':' :: ' ' :: v.dumpChars ++ _ = _
  cases tl <;> simp [escString, List.append_assoc]

theorem parseF_dumps (j : Json) :
    (j.isVal = true → j.wf = true →
      ∀ f cs rest, j.jsize ≤ f → numDelim rest → skipWs cs = j.dumpChars ++ rest →
        parseF f .val cs = some (j, rest)) ∧
    (j.chainL = true → j.wf = true → j ≠ Json.lnil →
      ∀ f cs rest, j.jsize ≤ f → skipWs cs = j.dumpChars ++ ']' :: rest →
        parseF f .elems cs = some (j, rest)) ∧
    (j.chainM = true → j.nodupKeys = true → j.wf = true → j ≠ Json.mnil →
      ∀ f rest, j.jsize ≤ f →
        parseF f .members (j.dumpChars ++ '\x7d' :: rest) = some (j, rest)) := by
  induction j with
  | jstr s =>
    refine ⟨fun hv hw f cs rest hf hd hskip => ?_, fun hc => by simp [Json.chainL] at hc,
      fun hc => by simp [Json.chainM] at hc⟩
    obtain ⟨f', rfl⟩ : ∃ f', f = f' + 1 := ⟨f - 1, by have := jsize_pos (Json.jstr s); omega⟩
    have hd1 : (Json.jstr s).dumpChars ++ rest = '"' :: ((escList s.data ++ ['"']) ++ rest) :=
      rfl
    rw [hd1] at hskip
    rw [parseF_val_head f' cs _ '"' hskip, parseVHead_quote]
    have hlist : (escList s.data ++ ['"']) ++ rest = escList s.data ++ '"' :: rest := by
      simp [List.append_assoc]
    rw [hlist]
    rw [parseStrAux_escList s.data _ rest (by
      have h1 := escList_length_ge s.data
      simp only [List.length_append, List.length_cons]
      omega)]
    simp [String.dataMk]
  | jint n =>
    refine ⟨fun hv hw f cs rest hf hd hskip => ?_, fun hc => by simp [Json.chainL] at hc,
      fun hc => by simp [Json.chainM] at hc⟩
    obtain ⟨f', rfl⟩ : ∃ f', f = f' + 1 := ⟨f - 1, by have := jsize_pos (Json.jint n); omega⟩
    obtain ⟨c, t, hct, hcor⟩ : ∃ c t, intChars n = c :: t ∧ (c = '-' ∨ c.isDigit = true) := by
      by_cases hn : n < 0
      · exact ⟨'-', natChars n.natAbs, by simp [intChars, hn], Or.inl rfl⟩
      · obtain ⟨hne, hdig, _, _⟩ := natChars_spec n.toNat
        rcases hl : natChars n.toNat with _ | ⟨d, t⟩
        · exact absurd hl hne
        · exact ⟨d, t, by simp [intChars, hn, hl],
            Or.inr (hdig d (by rw [hl]; exact List.mem_cons_self d t))⟩
    have hd1 : (Json.jint n).dumpChars ++ rest = c :: (t ++ rest) := by
      show intChars n ++ rest = _
      rw [hct]
      rfl
    rw [hd1] at hskip
    rw [parseF_val_head f' cs _ c hskip, parseVHead_num _ _ _ c hcor]
    have hback : c :: (t ++ rest) = intChars n ++ rest := by rw [hct]; rfl
    rw [hback, parseNum_intChars n hd]
  | jbool b =>
    refine ⟨fun hv hw f cs rest hf hd hskip => ?_, fun hc => by simp [Json.chainL] at hc,
      fun hc => by simp [Json.chainM] at hc⟩
    obtain ⟨f', rfl⟩ : ∃ f', f = f' + 1 := ⟨f - 1, by have := jsize_pos (Json.jbool b); omega⟩
    cases b
    · have hd1 : (Json.jbool false).dumpChars ++ rest =
          'f' :: ('a' :: 'l' :: 's' :: 'e' :: rest) := rfl
      rw [hd1] at hskip
      rw [parseF_val_head f' cs _ 'f' hskip, parseVHead_false]
    · have hd1 : (Json.jbool true).dumpChars ++ rest =
          't' :: ('r' :: 'u' :: 'e' :: rest) := rfl
      rw [hd1] at hskip
      rw [parseF_val_head f' cs _ 't' hskip, parseVHead_true]
  | jnull =>
    refine ⟨fun hv hw f cs rest hf hd hskip => ?_, fun hc => by simp [Json.chainL] at hc,
      fun hc => by simp [Json.chainM] at hc⟩
    obtain ⟨f', rfl⟩ : ∃ f', f = f' + 1 := ⟨f - 1, by have := jsize_pos Json.jnull; omega⟩
    have hd1 : Json.jnull.dumpChars ++ rest = 'n' :: ('u' :: 'l' :: 'l' :: rest) := rfl
    rw [hd1] at hskip
    rw [parseF_val_head f' cs _ 'n' hskip, parseVHead_null]
  | jarr e ih =>
    refine ⟨fun hv hw f cs rest hf hd hskip => ?_, fun hc => by simp [Json.chainL] at hc,
      fun hc => by simp [Json.chainM] at hc⟩
    obtain ⟨f', rfl⟩ : ∃ f', f = f' + 1 := ⟨f - 1, by have := jsize_pos (Json.jarr e); omega⟩
    obtain ⟨hce, hwe⟩ : e.chainL = true ∧ e.wf = true := by
      simpa [Json.wf, Bool.and_eq_true] using hw
    cases e
    case lnil =>
      have hd1 : (Json.jarr Json.lnil).dumpChars ++ rest = '[' :: (']' :: rest) := rfl
      rw [hd1] at hskip
      rw [parseF_val_head f' cs _ '[' hskip,
        parseVHead_obrack_close _ _ _ rest (skipWs_cons_neg (by decide))]
    case lcons h tl =>
      obtain ⟨hvh, hctl⟩ : h.isVal = true ∧ tl.chainL = true := by
        simpa [Json.chainL] using hce
      have hd1 : (Json.jarr (Json.lcons h tl)).dumpChars ++ rest
          = '[' :: ((Json.lcons h tl).dumpChars ++ ']' :: rest) := by
        show ('[' :: (Json.lcons h tl).dumpChars ++ [']']) ++ rest = _
        simp [List.append_assoc]
      rw [hd1] at hskip
      rw [parseF_val_head f' cs _ '[' hskip]
      obtain ⟨c0, t0, hct0, hws0, hne0, _⟩ := chainL_dump_head h tl hvh
      have hX : (Json.lcons h tl).dumpChars ++ ']' :: rest = c0 :: (t0 ++ ']' :: rest) := by
        rw [hct0]
        rfl
      rw [parseVHead_obrack _ _ _ (t0 ++ ']' :: rest) c0
        (by rw [hX]; exact skipWs_cons_neg hws0) hne0]
      rw [← hX]
      have hsz : (Json.lcons h tl).jsize ≤ f' := by
        have he : (Json.jarr (Json.lcons h tl)).jsize = 1 + (Json.lcons h tl).jsize := rfl
        omega
      have harr := ih.2.1 hce hwe (by intro hx; exact Json.noConfusion hx) f'
        ((Json.lcons h tl).dumpChars ++ ']' :: rest) rest hsz
        (by rw [hX]; exact skipWs_cons_neg hws0)
      rw [harr]
      rfl
    all_goals simp [Json.chainL] at hce
  | jobj m ih =>
    refine ⟨fun hv hw f cs rest hf hd hskip => ?_, fun hc => by simp [Json.chainL] at hc,
      fun hc => by simp [Json.chainM] at hc⟩
    obtain ⟨f', rfl⟩ : ∃ f', f = f' + 1 := ⟨f - 1, by have := jsize_pos (Json.jobj m); omega⟩
    obtain ⟨⟨hcm, hnd⟩, hwm⟩ : (m.chainM = true ∧ m.nodupKeys = true) ∧ m.wf = true := by
      simpa [Json.wf, Bool.and_eq_true] using hw
    cases m
    case mnil =>
      have hd1 : (Json.jobj Json.mnil).dumpChars ++ rest = '\x7b' :: ('\x7d' :: rest) := rfl
      rw [hd1] at hskip
      rw [parseF_val_head f' cs _ '\x7b' hskip,
        parseVHead_obrace_close _ _ _ rest (skipWs_cons_neg (by decide))]
    case mcons k v tl =>
      have hd1 : (Json.jobj (Json.mcons k v tl)).dumpChars ++ rest
          = '\x7b' :: ((Json.mcons k v tl).dumpChars ++ '\x7d' :: rest) := by
        show ('\x7b' :: (Json.mcons k v tl).dumpChars ++ ['\x7d']) ++ rest = _
        simp [List.append_assoc]
      rw [hd1] at hskip
      rw [parseF_val_head f' cs _ '\x7b' hskip]
      obtain ⟨t1, hct1⟩ : ∃ t1, (Json.mcons k v tl).dumpChars = '"' :: t1 :=
        ⟨_, mchain_dump_head k v tl⟩
      have hX : (Json.mcons k v tl).dumpChars ++ '\x7d' :: rest
          = '"' :: (t1 ++ '\x7d' :: rest) := by
        rw [hct1]
        rfl
      rw [parseVHead_obrace _ _ _ (t1 ++ '\x7d' :: rest) '"'
        (by rw [hX]; exact skipWs_cons_neg (by decide)) (by decide)]
      rw [← hX]
      have hsz : (Json.mcons k v tl).jsize ≤ f' := by
        have he : (Json.jobj (Json.mcons k v tl)).jsize = 1 + (Json.mcons k v tl).jsize := rfl
        omega
      have hobj := ih.2.2 hcm hnd hwm (by intro hx2; exact Json.noConfusion hx2) f' rest hsz
      rw [hobj]
      rfl
    all_goals simp [Json.chainM] at hcm
  | lnil =>
    refine ⟨fun hv => by simp [Json.isVal] at hv, fun _ _ hne => absurd rfl hne,
      fun hc => by simp [Json.chainM] at hc⟩
  | lcons h tl ihh ihtl =>
    refine ⟨fun hv => by simp [Json.isVal] at hv, fun hc hw hne0 f cs rest hf hskip => ?_,
      fun hc => by simp [Json.chainM] at hc⟩
    clear hne0
    obtain ⟨f', rfl⟩ : ∃ f', f = f' + 1 :=
      ⟨f - 1, by have := jsize_pos (Json.lcons h tl); omega⟩
    obtain ⟨hvh, hctl⟩ : h.isVal = true ∧ tl.chainL = true := by
      simpa [Json.chainL, Bool.and_eq_true] using hc
    obtain ⟨hwh, hwtl⟩ : h.wf = true ∧ tl.wf = true := by
      simpa [Json.wf, Bool.and_eq_true] using hw
    rw [parseF_elems_eq]
    cases tl
    case lnil =>
      have hskip2 : skipWs cs = h.dumpChars ++ ']' :: rest := hskip
      have hsz : h.jsize ≤ f' := by
        have he : (Json.lcons h Json.lnil).jsize = 1 + h.jsize := rfl
        omega
      have hval := ihh.1 hvh hwh f' cs (']' :: rest) hsz
        (numDelim_cons (by decide) (by decide) (by decide) (by decide)) hskip2
      rw [parseEStep_close _ _ cs (']' :: rest) rest h hval (skipWs_cons_neg (by decide))]
    case lcons th tt =>
      have hskip2 : skipWs cs = h.dumpChars ++ ',' :: ' ' ::
          ((Json.lcons th tt).dumpChars ++ ']' :: rest) := by
        rw [hskip]
        show (h.dumpChars ++ ',' :: ' ' :: (Json.lcons th tt).dumpChars) ++ ']' :: rest = _
        simp [List.append_assoc]
      have hsz : max h.jsize (Json.lcons th tt).jsize ≤ f' := by
        have he : (Json.lcons h (Json.lcons th tt)).jsize
            = 1 + max h.jsize (Json.lcons th tt).jsize := rfl
        omega
      have hval := ihh.1 hvh hwh f' cs
        (',' :: ' ' :: ((Json.lcons th tt).dumpChars ++ ']' :: rest))
        (le_trans (le_max_left _ _) hsz)
        (numDelim_cons (by decide) (by decide) (by decide) (by decide)) hskip2
      rw [parseEStep_comma _ _ cs _ (' ' :: ((Json.lcons th tt).dumpChars ++ ']' :: rest))
        h hval (skipWs_cons_neg (by decide))]
      have hskip3 : skipWs (' ' :: ((Json.lcons th tt).dumpChars ++ ']' :: rest))
          = (Json.lcons th tt).dumpChars ++ ']' :: rest := by
        obtain ⟨hvth, _⟩ : th.isVal = true ∧ tt.chainL = true := by
          simpa [Json.chainL, Bool.and_eq_true] using hctl
        obtain ⟨c0, t0, hct0, hws0, _, _⟩ := chainL_dump_head th tt hvth
        rw [skipWs_cons_pos (by decide), hct0, List.cons_append]
        exact skipWs_cons_neg hws0
      have helems := ihtl.2.1 hctl hwtl (by intro hx; exact Json.noConfusion hx) f'
        (' ' :: ((Json.lcons th tt).dumpChars ++ ']' :: rest)) rest
        (le_trans (le_max_right _ _) hsz) hskip3
      rw [helems]
      rfl
    all_goals simp [Json.chainL] at hctl
  | mnil =>
    refine ⟨fun hv => by simp [Json.isVal] at hv, fun hc => by simp [Json.chainL] at hc,
      fun _ _ _ hne => absurd rfl hne⟩
  | mcons k v tl ihv ihtl =>
    refine ⟨fun hv => by simp [Json.isVal] at hv, fun hc => by simp [Json.chainL] at hc,
      fun hc hn hw hne0 f rest hf => ?_⟩
    clear hne0
    obtain ⟨f', rfl⟩ : ∃ f', f = f' + 1 :=
      ⟨f - 1, by have := jsize_pos (Json.mcons k v tl); omega⟩
    obtain ⟨hvv, hctl⟩ : v.isVal = true ∧ tl.chainM = true := by
      simpa [Json.chainM, Bool.and_eq_true] using hc
    obtain ⟨hwv, hwtl⟩ : v.wf = true ∧ tl.wf = true := by
      simpa [Json.wf, Bool.and_eq_true] using hw
    obtain ⟨hk1, hndtl⟩ : tl.keys.contains k = false ∧ tl.nodupKeys = true := by
      simpa [Json.nodupKeys, Bool.and_eq_true] using hn
    rw [parseF_members_eq]
    cases tl
    case mnil =>
      have hin : (Json.mcons k v Json.mnil).dumpChars ++ '\x7d' :: rest
          = '"' :: (escList k.data ++ '"' ::
              (':' :: ' ' :: (v.dumpChars ++ '\x7d' :: rest))) := by
        simp [Json.dumpChars, escString, List.append_assoc]
      have hk := parseStrAux_escList k.data
        ((escList k.data ++ '"' :: (':' :: ' ' :: (v.dumpChars ++ '\x7d' :: rest))).length + 1)
        (':' :: ' ' :: (v.dumpChars ++ '\x7d' :: rest))
        (by have := escList_length_ge k.data
            simp only [List.length_append, List.length_cons]
            omega)
      have h1 : skipWs (':' :: ' ' :: (v.dumpChars ++ '\x7d' :: rest))
          = ':' :: (' ' :: (v.dumpChars ++ '\x7d' :: rest)) := skipWs_cons_neg (by decide)
      have hv2 : parseF f' .val (' ' :: (v.dumpChars ++ '\x7d' :: rest))
          = some (v, '\x7d' :: rest) :=
        ihv.1 hvv hwv f' _ _
          (by have he : (Json.mcons k v Json.mnil).jsize = 1 + v.jsize := rfl
              omega)
          (numDelim_cons (by decide) (by decide) (by decide) (by decide))
          (by rw [skipWs_cons_pos (by decide)]
              exact skipWs_dump v hvv _)
      have h3 : skipWs ('\x7d' :: rest) = '\x7d' :: rest := skipWs_cons_neg (by decide)
      rw [hin, parseMStep_close _ _ _ _ _ _ _ _ _ hk h1 hv2 h3, String.dataMk]
    case mcons tk tv tt =>
      have hin : (Json.mcons k v (Json.mcons tk tv tt)).dumpChars ++ '\x7d' :: rest
          = '"' :: (escList k.data ++ '"' :: (':' :: ' ' :: (v.dumpChars ++ ',' :: ' ' ::
              ((Json.mcons tk tv tt).dumpChars ++ '\x7d' :: rest)))) := by
        simp [Json.dumpChars, escString, List.append_assoc]
      have hsz : max v.jsize (Json.mcons tk tv tt).jsize ≤ f' := by
        have he : (Json.mcons k v (Json.mcons tk tv tt)).jsize
            = 1 + max v.jsize (Json.mcons tk tv tt).jsize := rfl
        omega
      have hk := parseStrAux_escList k.data
        ((escList k.data ++ '"' :: (':' :: ' ' :: (v.dumpChars ++ ',' :: ' ' ::
            ((Json.mcons tk tv tt).dumpChars ++ '\x7d' :: rest)))).length + 1)
        (':' :: ' ' :: (v.dumpChars ++ ',' :: ' ' ::
            ((Json.mcons tk tv tt).dumpChars ++ '\x7d' :: rest)))
        (by have := escList_length_ge k.data
            simp only [List.length_append, List.length_cons]
            omega)
      have h1 : skipWs (':' :: ' ' :: (v.dumpChars ++ ',' :: ' ' ::
            ((Json.mcons tk tv tt).dumpChars ++ '\x7d' :: rest)))
          = ':' :: (' ' :: (v.dumpChars ++ ',' :: ' ' ::
            ((Json.mcons tk tv tt).dumpChars ++ '\x7d' :: rest))) := skipWs_cons_neg (by decide)
      have hv2 : parseF f' .val (' ' :: (v.dumpChars ++ ',' :: ' ' ::
            ((Json.mcons tk tv tt).dumpChars ++ '\x7d' :: rest)))
          = some (v, ',' :: ' ' :: ((Json.mcons tk tv tt).dumpChars ++ '\x7d' :: rest)) :=
        ihv.1 hvv hwv f' _ _ (le_trans (le_max_left _ _) hsz)
          (numDelim_cons (by decide) (by decide) (by decide) (by decide))
          (by rw [skipWs_cons_pos (by decide)]
              exact skipWs_dump v hvv _)
      have h3 : skipWs (',' :: ' ' :: ((Json.mcons tk tv tt).dumpChars ++ '\x7d' :: rest))
          = ',' :: (' ' :: ((Json.mcons tk tv tt).dumpChars ++ '\x7d' :: rest)) :=
        skipWs_cons_neg (by decide)
      have hD : skipWs (' ' :: ((Json.mcons tk tv tt).dumpChars ++ '\x7d' :: rest))
          = (Json.mcons tk tv tt).dumpChars ++ '\x7d' :: rest := by
        rw [skipWs_cons_pos (by decide), mchain_dump_head tk tv tt, List.cons_append]
        exact skipWs_cons_neg (by decide)
      have hmem := ihtl.2.2 hctl hndtl hwtl (by intro hx; exact Json.noConfusion hx) f' rest
        (le_trans (le_max_right _ _) hsz)
      have hlk : (Json.mcons tk tv tt).lookup (String.mk k.data) = none := by
        rw [String.dataMk]
        exact lookup_eq_none_of_not_contains _ k hk1
      rw [hin, parseMStep_comma _ _ _ _ _ _ _ _ _ hk h1 hv2 h3, hD, hmem]
      show some (Json.dedupCons (String.mk k.data) v (Json.mcons tk tv tt), rest)
          = some (Json.mcons k v (Json.mcons tk tv tt), rest)
      rw [show Json.dedupCons (String.mk k.data) v (Json.mcons tk tv tt)
            = Json.mcons (String.mk k.data) v (Json.mcons tk tv tt) from by
          unfold Json.dedupCons
          rw [hlk]]
    all_goals simp [Json.chainM] at hctl


/-- `json.dumps` then `json.loads` is the identity on well-formed values. -/
theorem parse_dumps (j : Json) (hv : j.isVal = true) (hw : j.wf = true) :
    Json.parse j.dumps = some j := by
  have h0 : skipWs j.dumpChars = j.dumpChars ++ [] := by
    have h1 := skipWs_dump j hv []
    rw [List.append_nil] at h1 ⊢
    exact h1
  have hp := (parseF_dumps j).1 hv hw (j.dumpChars.length + 1) j.dumpChars []
    ((jsize_le j).1 hv hw) numDelim_nil h0
  show parseChars j.dumpChars = some j
  unfold parseChars
  rw [hp]
  rfl

/-! ## Lemma layer 8: everything the parser returns is well-formed -/

theorem contains_removeKey_false (m : Json) (key x : String)
    (h : m.keys.contains x = false) : ((m.removeKey key).keys.contains x) = false := by
  induction m with
  | mcons k v tl ihv ihtl =>
    simp only [Json.keys, List.contains_cons, Bool.or_eq_false_iff] at h
    unfold Json.removeKey
    split_ifs with hk
    · exact h.2
    · simp only [Json.keys, List.contains_cons, Bool.or_eq_false_iff]
      exact ⟨h.1, ihtl h.2⟩
  | jstr s => exact h
  | jint n => exact h
  | jbool b => exact h
  | jnull => exact h
  | jarr e ih => exact h
  | jobj m2 ih => exact h
  | lnil => exact h
  | lcons a b iha ihb => exact h
  | mnil => exact h

theorem chainM_removeKey (m : Json) (key : String) (h : m.chainM = true) :
    (m.removeKey key).chainM = true := by
  induction m with
  | mcons k v tl ihv ihtl =>
    obtain ⟨hv1, hc1⟩ : v.isVal = true ∧ tl.chainM = true := by
      simpa [Json.chainM, Bool.and_eq_true] using h
    unfold Json.removeKey
    split_ifs with hk
    · exact hc1
    · simp [Json.chainM, hv1, ihtl hc1]
  | jstr s => exact h
  | jint n => exact h
  | jbool b => exact h
  | jnull => exact h
  | jarr e ih => exact h
  | jobj m2 ih => exact h
  | lnil => exact h
  | lcons a b iha ihb => exact h
  | mnil => exact h

theorem wf_removeKey (m : Json) (key : String) (h : m.wf = true) :
    (m.removeKey key).wf = true := by
  induction m with
  | mcons k v tl ihv ihtl =>
    obtain ⟨hv1, hw1⟩ : v.wf = true ∧ tl.wf = true := by
      simpa [Json.wf, Bool.and_eq_true] using h
    unfold Json.removeKey
    split_ifs with hk
    · exact hw1
    · simp [Json.wf, hv1, ihtl hw1]
  | jstr s => exact h
  | jint n => exact h
  | jbool b => exact h
  | jnull => exact h
  | jarr e ih => exact h
  | jobj m2 ih => exact h
  | lnil => exact h
  | lcons a b iha ihb => exact h
  | mnil => exact h

theorem nodupKeys_removeKey (m : Json) (key : String) (h : m.nodupKeys = true) :
    (m.removeKey key).nodupKeys = true := by
  induction m with
  | mcons k v tl ihv ihtl =>
    obtain ⟨hk1, hn1⟩ : tl.keys.contains k = false ∧ tl.nodupKeys = true := by
      simpa [Json.nodupKeys, Bool.and_eq_true] using h
    unfold Json.removeKey
    split_ifs with hk
    · exact hn1
    · have h1 := contains_removeKey_false tl key k hk1
      show (!((tl.removeKey key).keys.contains k) && (tl.removeKey key).nodupKeys) = true
      rw [h1, ihtl hn1]
      rfl
  | jstr s => exact h
  | jint n => exact h
  | jbool b => exact h
  | jnull => exact h
  | jarr e ih => exact h
  | jobj m2 ih => exact h
  | lnil => exact h
  | lcons a b iha ihb => exact h
  | mnil => exact h

theorem contains_removeKey_self (m : Json) (key : String) (h : m.nodupKeys = true) :
    ((m.removeKey key).keys.contains key) = false := by
  induction m with
  | mcons k v tl ihv ihtl =>
    obtain ⟨hk1, hn1⟩ : tl.keys.contains k = false ∧ tl.nodupKeys = true := by
      simpa [Json.nodupKeys, Bool.and_eq_true] using h
    unfold Json.removeKey
    split_ifs with hk
    · rw [← hk]
      exact hk1
    · simp only [Json.keys, List.contains_cons, Bool.or_eq_false_iff]
      refine ⟨?_, ihtl hn1⟩
      simp only [beq_eq_false_iff_ne, ne_eq]
      intro he
      exact hk he.symm
  | jstr s => simp [Json.removeKey, Json.keys]
  | jint n => simp [Json.removeKey, Json.keys]
  | jbool b => simp [Json.removeKey, Json.keys]
  | jnull => simp [Json.removeKey, Json.keys]
  | jarr e ih => simp [Json.removeKey, Json.keys]
  | jobj m2 ih => simp [Json.removeKey, Json.keys]
  | lnil => simp [Json.removeKey, Json.keys]
  | lcons a b iha ihb => simp [Json.removeKey, Json.keys]
  | mnil => simp [Json.removeKey, Json.keys]

theorem contains_eq_false_of_lookup_none (m : Json) (key : String)
    (h : m.lookup key = none) : m.keys.contains key = false := by
  induction m with
  | mcons k v tl ihv ihtl =>
    unfold Json.lookup at h
    split_ifs at h with hk
    simp only [Json.keys, List.contains_cons, Bool.or_eq_false_iff]
    refine ⟨?_, ihtl h⟩
    simp only [beq_eq_false_iff_ne, ne_eq]
    intro he
    exact hk he.symm
  | jstr s => simp [Json.keys]
  | jint n => simp [Json.keys]
  | jbool b => simp [Json.keys]
  | jnull => simp [Json.keys]
  | jarr e ih => simp [Json.keys]
  | jobj m2 ih => simp [Json.keys]
  | lnil => simp [Json.keys]
  | lcons a b iha ihb => simp [Json.keys]
  | mnil => simp [Json.keys]

theorem lookup_isVal (m : Json) (key : String) (v : Json) (hc : m.chainM = true)
    (h : m.lookup key = some v) : v.isVal = true := by
  induction m with
  | mcons k v1 tl ihv ihtl =>
    obtain ⟨hv1, hc1⟩ : v1.isVal = true ∧ tl.chainM = true := by
      simpa [Json.chainM, Bool.and_eq_true] using hc
    unfold Json.lookup at h
    split_ifs at h with hk
    · obtain rfl : v1 = v := by simpa using h
      exact hv1
    · exact ihtl hc1 h
  | jstr s => exact absurd h (by simp [Json.lookup])
  | jint n => exact absurd h (by simp [Json.lookup])
  | jbool b => exact absurd h (by simp [Json.lookup])
  | jnull => exact absurd h (by simp [Json.lookup])
  | jarr e ih => exact absurd h (by simp [Json.lookup])
  | jobj m2 ih => exact absurd h (by simp [Json.lookup])
  | lnil => exact absurd h (by simp [Json.lookup])
  | lcons a b iha ihb => exact absurd h (by simp [Json.lookup])
  | mnil => exact absurd h (by simp [Json.lookup])

theorem lookup_wf (m : Json) (key : String) (v : Json) (hw : m.wf = true)
    (h : m.lookup key = some v) : v.wf = true := by
  induction m with
  | mcons k v1 tl ihv ihtl =>
    obtain ⟨hv1, hw1⟩ : v1.wf = true ∧ tl.wf = true := by
      simpa [Json.wf, Bool.and_eq_true] using hw
    unfold Json.lookup at h
    split_ifs at h with hk
    · obtain rfl : v1 = v := by simpa using h
      exact hv1
    · exact ihtl hw1 h
  | jstr s => exact absurd h (by simp [Json.lookup])
  | jint n => exact absurd h (by simp [Json.lookup])
  | jbool b => exact absurd h (by simp [Json.lookup])
  | jnull => exact absurd h (by simp [Json.lookup])
  | jarr e ih => exact absurd h (by simp [Json.lookup])
  | jobj m2 ih => exact absurd h (by simp [Json.lookup])
  | lnil => exact absurd h (by simp [Json.lookup])
  | lcons a b iha ihb => exact absurd h (by simp [Json.lookup])
  | mnil => exact absurd h (by simp [Json.lookup])

/-- The Python-dict duplicate-key resolution keeps every structural invariant. -/
theorem dedupCons_props (k : String) (v m : Json) (hvv : v.isVal = true)
    (hvw : v.wf = true) (hc : m.chainM = true) (hn : m.nodupKeys = true)
    (hw : m.wf = true) :
    (Json.dedupCons k v m).chainM = true ∧ (Json.dedupCons k v m).nodupKeys = true ∧
      (Json.dedupCons k v m).wf = true := by
  unfold Json.dedupCons
  cases hlk : m.lookup k with
  | none =>
    refine ⟨by simp [Json.chainM, hvv, hc], ?_, by simp [Json.wf, hvw, hw]⟩
    have h1 := contains_eq_false_of_lookup_none m k hlk
    show (!(m.keys.contains k) && m.nodupKeys) = true
    rw [h1, hn]
    rfl
  | some v2 =>
    refine ⟨?_, ?_, ?_⟩
    · show (v2.isVal && (m.removeKey k).chainM) = true
      rw [lookup_isVal m k v2 hc hlk, chainM_removeKey m k hc]
      rfl
    · show (!((m.removeKey k).keys.contains k) && (m.removeKey k).nodupKeys) = true
      rw [contains_removeKey_self m k hn, nodupKeys_removeKey m k hn]
      rfl
    · show (v2.wf && (m.removeKey k).wf) = true
      rw [lookup_wf m k v2 hw hlk, wf_removeKey m k hw]
      rfl


theorem parseNum_shape (cs : List Char) (j : Json) (r : List Char)
    (h : parseNum cs = some (j, r)) : ∃ n, j = Json.jint n := by
  unfold parseNum at h
  split at h
  · exact absurd h (by simp)
  · split_ifs at h
    · split at h
      · simp only [Option.some.injEq, Prod.mk.injEq] at h
        exact ⟨_, h.1.symm⟩
      · exact absurd h (by simp)
    · split at h
      · simp only [Option.some.injEq, Prod.mk.injEq] at h
        exact ⟨_, h.1.symm⟩
      · exact absurd h (by simp)

theorem parseVHead_wf_aux (pe pm : List Char → Option (Json × List Char))
    (hpe : ∀ l j r, pe l = some (j, r) → j.chainL = true ∧ j.wf = true)
    (hpm : ∀ l j r, pm l = some (j, r) →
      j.chainM = true ∧ j.nodupKeys = true ∧ j.wf = true)
    (c : Char) (cs1 : List Char) (j : Json) (r : List Char)
    (h : parseVHead pe pm c cs1 = some (j, r)) : j.isVal = true ∧ j.wf = true := by
  unfold parseVHead at h
  split_ifs at h with h1 h2 h3 h4 h5 h6 h7
  · obtain ⟨p, hp, hab⟩ := Option.map_eq_some'.mp h
    cases hab
    exact ⟨rfl, rfl⟩
  · revert h
    cases hsw : skipWs cs1 with
    | nil =>
      intro h
      obtain ⟨p, hp, hab⟩ := Option.map_eq_some'.mp h
      cases hab
      obtain ⟨hc1, hn1, hw1⟩ := hpm [] p.1 p.2 (by rw [← hp])
      exact ⟨rfl, by simp [Json.wf, hc1, hn1, hw1]⟩
    | cons d cs2 =>
      intro h
      replace h : (if d = '\x7d' then some (Json.jobj Json.mnil, cs2)
          else (pm (d :: cs2)).map (fun p => (Json.jobj p.1, p.2))) = some (j, r) := h
      split_ifs at h with hd
      · simp only [Option.some.injEq, Prod.mk.injEq] at h
        obtain ⟨rfl, rfl⟩ := h
        exact ⟨rfl, rfl⟩
      · obtain ⟨p, hp, hab⟩ := Option.map_eq_some'.mp h
        cases hab
        obtain ⟨hc1, hn1, hw1⟩ := hpm _ p.1 p.2 (by rw [← hp])
        exact ⟨rfl, by simp [Json.wf, hc1, hn1, hw1]⟩
  · revert h
    cases hsw : skipWs cs1 with
    | nil =>
      intro h
      obtain ⟨p, hp, hab⟩ := Option.map_eq_some'.mp h
      cases hab
      obtain ⟨hc1, hw1⟩ := hpe [] p.1 p.2 (by rw [← hp])
      exact ⟨rfl, by simp [Json.wf, hc1, hw1]⟩
    | cons d cs2 =>
      intro h
      replace h : (if d = ']' then some (Json.jarr Json.lnil, cs2)
          else (pe (d :: cs2)).map (fun p => (Json.jarr p.1, p.2))) = some (j, r) := h
      split_ifs at h with hd
      · simp only [Option.some.injEq, Prod.mk.injEq] at h
        obtain ⟨rfl, rfl⟩ := h
        exact ⟨rfl, rfl⟩
      · obtain ⟨p, hp, hab⟩ := Option.map_eq_some'.mp h
        cases hab
        obtain ⟨hc1, hw1⟩ := hpe _ p.1 p.2 (by rw [← hp])
        exact ⟨rfl, by simp [Json.wf, hc1, hw1]⟩
  · split at h
    all_goals first
    | (simp only [Option.some.injEq, Prod.mk.injEq] at h
       obtain ⟨rfl, rfl⟩ := h
       exact ⟨rfl, rfl⟩)
    | (exfalso
       exact Option.noConfusion h)
  · split at h
    all_goals first
    | (simp only [Option.some.injEq, Prod.mk.injEq] at h
       obtain ⟨rfl, rfl⟩ := h
       exact ⟨rfl, rfl⟩)
    | (exfalso
       exact Option.noConfusion h)
  · split at h
    all_goals first
    | (simp only [Option.some.injEq, Prod.mk.injEq] at h
       obtain ⟨rfl, rfl⟩ := h
       exact ⟨rfl, rfl⟩)
    | (exfalso
       exact Option.noConfusion h)
  · obtain ⟨n, rfl⟩ := parseNum_shape _ _ _ h
    exact ⟨rfl, rfl⟩

theorem parseEStep_wf_aux (pv pe : List Char → Option (Json × List Char))
    (hpv : ∀ l j r, pv l = some (j, r) → j.isVal = true ∧ j.wf = true)
    (hpe : ∀ l j r, pe l = some (j, r) → j.chainL = true ∧ j.wf = true)
    (cs : List Char) (j : Json) (r : List Char)
    (h : parseEStep pv pe cs = some (j, r)) : j.chainL = true ∧ j.wf = true := by
  unfold parseEStep at h
  split at h
  · exact absurd h (by simp)
  · rename_i v r1 heq
    split at h
    · exact absurd h (by simp)
    · split_ifs at h with hd1 hd2
      · obtain ⟨p, hp, hab⟩ := Option.map_eq_some'.mp h
        cases hab
        obtain ⟨hc1, hw1⟩ := hpe _ p.1 p.2 (by rw [← hp])
        obtain ⟨hv1, hvw1⟩ := hpv _ _ _ heq
        exact ⟨by simp [Json.chainL, hv1, hc1], by simp [Json.wf, hvw1, hw1]⟩
      · simp only [Option.some.injEq, Prod.mk.injEq] at h
        obtain ⟨rfl, rfl⟩ := h
        obtain ⟨hv1, hvw1⟩ := hpv _ _ _ heq
        exact ⟨by simp [Json.chainL, hv1], by simp [Json.wf, hvw1]⟩

theorem parseMStep_wf_aux (pv pm : List Char → Option (Json × List Char))
    (hpv : ∀ l j r, pv l = some (j, r) → j.isVal = true ∧ j.wf = true)
    (hpm : ∀ l j r, pm l = some (j, r) →
      j.chainM = true ∧ j.nodupKeys = true ∧ j.wf = true)
    (cs : List Char) (j : Json) (r : List Char)
    (h : parseMStep pv pm cs = some (j, r)) :
    j.chainM = true ∧ j.nodupKeys = true ∧ j.wf = true := by
  unfold parseMStep at h
  split at h
  · exact absurd h (by simp)
  · rename_i c r0
    split_ifs at h with hc1
    · split at h
      · exact absurd h (by simp)
      · rename_i kcs r1 hk
        split at h
        · exact absurd h (by simp)
        · split_ifs at h with hd1
          · split at h
            · exact absurd h (by simp)
            · rename_i v r3 hv
              split at h
              · exact absurd h (by simp)
              · split_ifs at h with hd2 hd3
                · obtain ⟨p, hp, hab⟩ := Option.map_eq_some'.mp h
                  cases hab
                  obtain ⟨hcm, hnd, hwm⟩ := hpm _ p.1 p.2 (by rw [← hp])
                  obtain ⟨hvv, hvw⟩ := hpv _ _ _ hv
                  exact dedupCons_props _ _ _ hvv hvw hcm hnd hwm
                · simp only [Option.some.injEq, Prod.mk.injEq] at h
                  obtain ⟨rfl, rfl⟩ := h
                  obtain ⟨hvv, hvw⟩ := hpv _ _ _ hv
                  refine ⟨by simp [Json.chainM, hvv], by simp [Json.nodupKeys, Json.keys],
                    by simp [Json.wf, hvw]⟩

/-- What each phase of the parser returns satisfies its structural invariant. -/
theorem parseF_wf (f : Nat) :
    ∀ (cs : List Char) (j : Json) (r : List Char),
      (parseF f .val cs = some (j, r) → j.isVal = true ∧ j.wf = true) ∧
      (parseF f .elems cs = some (j, r) → j.chainL = true ∧ j.wf = true) ∧
      (parseF f .members cs = some (j, r) →
        j.chainM = true ∧ j.nodupKeys = true ∧ j.wf = true) := by
  induction f with
  | zero =>
    intro cs j r
    refine ⟨fun h => ?_, fun h => ?_, fun h => ?_⟩ <;> simp [parseF] at h
  | succ f ih =>
    intro cs j r
    refine ⟨fun h => ?_, fun h => ?_, fun h => ?_⟩
    · rw [parseF] at h
      revert h
      cases hsw : skipWs cs with
      | nil => intro h; exact absurd h (by simp)
      | cons c cs1 =>
        intro h
        exact parseVHead_wf_aux _ _ (fun l j2 r2 hh => (ih l j2 r2).2.1 hh)
          (fun l j2 r2 hh => (ih l j2 r2).2.2 hh) c cs1 j r h
    · rw [parseF] at h
      exact parseEStep_wf_aux _ _ (fun l j2 r2 hh => (ih l j2 r2).1 hh)
        (fun l j2 r2 hh => (ih l j2 r2).2.1 hh) cs j r h
    · rw [parseF] at h
      exact parseMStep_wf_aux _ _ (fun l j2 r2 hh => (ih l j2 r2).1 hh)
        (fun l j2 r2 hh => (ih l j2 r2).2.2 hh) cs j r h

/-- Everything `json.loads` accepts is a well-formed value. -/
theorem parseChars_wf (cs : List Char) (j : Json) (h : parseChars cs = some j) :
    j.isVal = true ∧ j.wf = true := by
  unfold parseChars at h
  split at h
  · rename_i j2 r2 heq
    split_ifs at h
    simp only [Option.some.injEq] at h
    subst h
    exact (parseF_wf _ cs _ r2).1 heq
  · exact absurd h (by simp)


/-! ## Lemma layer 9: the two steps and the full run -/

theorem isEmpty_false_of_ne (s : String) (h : s ≠ "") : s.isEmpty = false := by
  rw [← Bool.not_eq_true, String.isEmpty_iff]
  exact h

theorem mem_pyStrip {c : Char} {r : String} (h : c ∈ (pyStrip r).data) : c ∈ r.data := by
  unfold pyStrip at h
  rw [String.mkData, List.mem_reverse] at h
  have h2 := (List.dropWhile_sublist (p := isPySpace)).mem h
  rw [List.mem_reverse] at h2
  exact (List.dropWhile_sublist (p := isPySpace)).mem h2

theorem firstIdx_none {c : Char} {l : List Char} (h : c ∉ l) : firstIdx c l = none := by
  induction l with
  | nil => rfl
  | cons x xs ih =>
    unfold firstIdx
    rw [if_neg, ih (fun hm => h (List.mem_cons_of_mem x hm))]
    · rfl
    · intro he
      subst he
      exact h (List.mem_cons_self x xs)

theorem decisionJson_none_of_no_brace (r : String) (h : '\x7b' ∉ r.data) :
    decisionJson r = none := by
  have h2 : firstIdx '\x7b' (pyStrip r).data = none :=
    firstIdx_none (fun hm => h (mem_pyStrip hm))
  unfold decisionJson extractBraces
  rw [h2]
  rfl

theorem decisionJson_wf (r : String) (j : Json) (h : decisionJson r = some j) :
    j.isVal = true ∧ j.wf = true := by
  unfold decisionJson at h
  cases hx : extractBraces (pyStrip r).data with
  | none =>
    rw [hx] at h
    exact absurd h (by simp)
  | some cs =>
    rw [hx] at h
    exact parseChars_wf cs j h

/-- `call_model` from the hardcoded initial state, as a function of the
decision pipeline. -/
theorem call_model_initState (r : String) :
    call_model (some r) initState =
      match decisionJson r with
      | none => some { messages := initState.messages ++ [fallbackMsg], next := END }
      | some parsed =>
        match pyIn "tool" parsed with
        | none => some { messages := initState.messages ++ [fallbackMsg], next := END }
        | some b =>
          some { messages := initState.messages ++ [⟨.ai, parsed.dumps⟩],
                 next := if b then "call_tool" else END } := rfl

theorem call_model_run (r : String) (j : Json) (b : Bool)
    (hd : decisionJson r = some j) (hb : pyIn "tool" j = some b) :
    call_model (some r) initState =
      some { messages := initState.messages ++ [⟨.ai, j.dumps⟩],
             next := if b then "call_tool" else END } := by
  rw [call_model_initState, hd]
  show (match pyIn "tool" j with
    | none => some (AgentState.mk (initState.messages ++ [fallbackMsg]) END)
    | some b2 =>
      some (AgentState.mk (initState.messages ++ [Message.mk Role.ai j.dumps])
        (if b2 then "call_tool" else END))) = _
  rw [hb]

theorem call_model_fallback (r : String) (hd : decisionJson r = none) :
    call_model (some r) initState =
      some { messages := initState.messages ++ [fallbackMsg], next := END } := by
  rw [call_model_initState, hd]

theorem chain_invoke_direct (resp : Option String) (s1 : AgentState)
    (hcm : call_model resp initState = some s1) (hn : s1.next ≠ "call_tool") :
    chain_invoke resp initState = some s1 := by
  unfold chain_invoke
  rw [hcm]
  show (if s1.next = "call_tool" then call_tool s1 else some s1) = some s1
  rw [if_neg hn]

theorem renderResult_final (msgs : List Message) (nxt t : String) :
    renderResult { messages := msgs ++ [⟨.ai, (finalAnswerObj t).dumps⟩], next := nxt }
      = t := by
  unfold renderResult
  rw [show ({ messages := msgs ++ [⟨.ai, (finalAnswerObj t).dumps⟩], next := nxt }
      : AgentState).messages.getLast? = some ⟨.ai, (finalAnswerObj t).dumps⟩ from
    List.getLast?_concat msgs]
  show (match Json.parse (finalAnswerObj t).dumps with
    | none => (finalAnswerObj t).dumps
    | some parsed =>
      match pyIn "final_answer" parsed with
      | none => "An error occurred: " ++ typeErrMsg
      | some true =>
        match parsed with
        | .jobj m => pyStr ((m.lookup "final_answer").getD .jnull)
        | _ => "An error occurred: " ++ typeErrMsg
      | some false => pyStr parsed) = t
  rw [parse_dumps (finalAnswerObj t) rfl rfl]
  rfl


theorem toolStep_parseFail (c : String) (hp : Json.parse c = none) :
    toolStep c = ((finalAnswerObj ("Error executing tool: " ++ jsonDecodeErrMsg)).dumps,
      false) := by
  unfold toolStep
  rw [hp]

theorem toolStep_eq (c : String) (m : Json) (hp : Json.parse c = some (Json.jobj m)) :
    toolStep c =
      match pyIn "tool" (Json.jobj m) with
      | none => ((finalAnswerObj ("Error executing tool: " ++ typeErrMsg)).dumps, false)
      | some false => ((finalAnswerObj wrongToolText).dumps, false)
      | some true =>
        if m.lookup "tool" = some (.jstr "say_hello") then
          let ti := (m.lookup "tool_input").getD (.jstr "")
          if ti.truthy then ((finalAnswerObj (say_hello (pyStr ti))).dumps, true)
          else ((finalAnswerObj noNameText).dumps, false)
        else ((finalAnswerObj wrongToolText).dumps, false) := by
  unfold toolStep
  rw [hp]

theorem pyIn_tool_true (m : Json) (v : Json) (ht : m.lookup "tool" = some v) :
    pyIn "tool" (Json.jobj m) = some true := by
  show some (m.hasKeyB "tool") = some true
  unfold Json.hasKeyB
  rw [ht]
  rfl

theorem toolStep_success (c : String) (m : Json) (name : String)
    (hp : Json.parse c = some (Json.jobj m))
    (ht : m.lookup "tool" = some (.jstr "say_hello"))
    (hti : m.lookup "tool_input" = some (.jstr name))
    (hne : name ≠ "") :
    toolStep c = ((finalAnswerObj (say_hello name)).dumps, true) := by
  rw [toolStep_eq _ m hp, pyIn_tool_true m _ ht]
  show (if m.lookup "tool" = some (.jstr "say_hello") then
      let ti := (m.lookup "tool_input").getD (.jstr "")
      if ti.truthy then ((finalAnswerObj (say_hello (pyStr ti))).dumps, true)
      else ((finalAnswerObj noNameText).dumps, false)
    else ((finalAnswerObj wrongToolText).dumps, false)) = _
  rw [if_pos ht]
  show (if ((m.lookup "tool_input").getD (.jstr "")).truthy then
      ((finalAnswerObj (say_hello (pyStr ((m.lookup "tool_input").getD (.jstr ""))))).dumps,
        true)
    else ((finalAnswerObj noNameText).dumps, false)) = _
  rw [hti]
  rw [if_pos (show ((some (Json.jstr name)).getD (.jstr "")).truthy = true from by
    show (!name.isEmpty) = true
    rw [isEmpty_false_of_ne name hne]
    rfl)]
  rfl

theorem toolStep_noName (c : String) (m : Json)
    (hp : Json.parse c = some (Json.jobj m))
    (ht : m.lookup "tool" = some (.jstr "say_hello"))
    (hti : m.lookup "tool_input" = none ∨ m.lookup "tool_input" = some (.jstr "")) :
    toolStep c = ((finalAnswerObj noNameText).dumps, false) := by
  rw [toolStep_eq _ m hp, pyIn_tool_true m _ ht]
  show (if m.lookup "tool" = some (.jstr "say_hello") then
      let ti := (m.lookup "tool_input").getD (.jstr "")
      if ti.truthy then ((finalAnswerObj (say_hello (pyStr ti))).dumps, true)
      else ((finalAnswerObj noNameText).dumps, false)
    else ((finalAnswerObj wrongToolText).dumps, false)) = _
  rw [if_pos ht]
  show (if ((m.lookup "tool_input").getD (.jstr "")).truthy then
      ((finalAnswerObj (say_hello (pyStr ((m.lookup "tool_input").getD (.jstr ""))))).dumps,
        true)
    else ((finalAnswerObj noNameText).dumps, false)) = _
  cases hti with
  | inl h =>
    rw [h]
    rfl
  | inr h =>
    rw [h]
    rfl

theorem toolStep_wrongTool (c : String) (m : Json)
    (hp : Json.parse c = some (Json.jobj m))
    (hl : m.lookup "tool" ≠ some (.jstr "say_hello")) :
    toolStep c = ((finalAnswerObj wrongToolText).dumps, false) := by
  rw [toolStep_eq _ m hp]
  cases hk : m.lookup "tool" with
  | none =>
    have hb : pyIn "tool" (Json.jobj m) = some false := by
      show some (m.hasKeyB "tool") = some false
      unfold Json.hasKeyB
      rw [hk]
      rfl
    rw [hb]
  | some v =>
    rw [pyIn_tool_true m v hk]
    show (if some v = some (Json.jstr "say_hello") then
        let ti := (m.lookup "tool_input").getD (.jstr "")
        if ti.truthy then ((finalAnswerObj (say_hello (pyStr ti))).dumps, true)
        else ((finalAnswerObj noNameText).dumps, false)
      else ((finalAnswerObj wrongToolText).dumps, false)) = _
    rw [if_neg (show ¬(some v = some (Json.jstr "say_hello")) from by
      rw [← hk]
      exact hl)]

theorem toolStep_shape (c : String) :
    ∃ t b, toolStep c = ((finalAnswerObj t).dumps, b) := by
  unfold toolStep
  cases hp : Json.parse c with
  | none => exact ⟨_, _, rfl⟩
  | some parsed =>
    clear hp
    show ∃ t b, (match pyIn "tool" parsed with
      | none => ((finalAnswerObj ("Error executing tool: " ++ typeErrMsg)).dumps, false)
      | some false => ((finalAnswerObj wrongToolText).dumps, false)
      | some true =>
        match parsed with
        | .jobj m =>
          if m.lookup "tool" = some (.jstr "say_hello") then
            let ti := (m.lookup "tool_input").getD (.jstr "")
            if ti.truthy then ((finalAnswerObj (say_hello (pyStr ti))).dumps, true)
            else ((finalAnswerObj noNameText).dumps, false)
          else ((finalAnswerObj wrongToolText).dumps, false)
        | _ => ((finalAnswerObj ("Error executing tool: " ++ typeErrMsg)).dumps, false))
      = ((finalAnswerObj t).dumps, b)
    cases hin : pyIn "tool" parsed with
    | none => exact ⟨_, _, rfl⟩
    | some b =>
      cases b
      · exact ⟨_, _, rfl⟩
      · clear hin
        cases parsed with
        | jobj m =>
          show ∃ t b, (if m.lookup "tool" = some (.jstr "say_hello") then
              let ti := (m.lookup "tool_input").getD (.jstr "")
              if ti.truthy then ((finalAnswerObj (say_hello (pyStr ti))).dumps, true)
              else ((finalAnswerObj noNameText).dumps, false)
            else ((finalAnswerObj wrongToolText).dumps, false)) = ((finalAnswerObj t).dumps, b)
          by_cases hl : m.lookup "tool" = some (.jstr "say_hello")
          · rw [if_pos hl]
            show ∃ t b, (if ((m.lookup "tool_input").getD (.jstr "")).truthy then
                ((finalAnswerObj
                  (say_hello (pyStr ((m.lookup "tool_input").getD (.jstr ""))))).dumps, true)
              else ((finalAnswerObj noNameText).dumps, false)) = ((finalAnswerObj t).dumps, b)
            by_cases htr : ((m.lookup "tool_input").getD (.jstr "")).truthy = true
            · rw [if_pos htr]
              exact ⟨_, _, rfl⟩
            · rw [if_neg htr]
              exact ⟨_, _, rfl⟩
          · rw [if_neg hl]
            exact ⟨_, _, rfl⟩
        | jstr s => exact ⟨_, _, rfl⟩
        | jint n => exact ⟨_, _, rfl⟩
        | jbool b2 => exact ⟨_, _, rfl⟩
        | jnull => exact ⟨_, _, rfl⟩
        | jarr e => exact ⟨_, _, rfl⟩
        | lnil => exact ⟨_, _, rfl⟩
        | lcons h1 t1 => exact ⟨_, _, rfl⟩
        | mnil => exact ⟨_, _, rfl⟩
        | mcons k v tl => exact ⟨_, _, rfl⟩

theorem chain_invoke_tool (resp : Option String) (s1 : AgentState)
    (hcm : call_model resp initState = some s1) (hn : s1.next = "call_tool")
    (last : Message) (hl : s1.messages.getLast? = some last) :
    chain_invoke resp initState =
      some (AgentState.mk (s1.messages ++ [Message.mk .ai (toolStep last.content).1])
        END) := by
  unfold chain_invoke
  rw [hcm]
  show (if s1.next = "call_tool" then call_tool s1 else some s1) = _
  rw [if_pos hn]
  unfold call_tool
  rw [hl]

theorem runToolCalled_direct (resp : Option String) (s1 : AgentState)
    (hcm : call_model resp initState = some s1) (hn : s1.next ≠ "call_tool") :
    runToolCalled resp initState = false := by
  unfold runToolCalled
  rw [hcm]
  show (if s1.next = "call_tool" then
      match s1.messages.getLast? with
      | some last => (toolStep last.content).2
      | none => false
    else false) = false
  rw [if_neg hn]

theorem runToolCalled_tool (resp : Option String) (s1 : AgentState) (last : Message)
    (hcm : call_model resp initState = some s1) (hn : s1.next = "call_tool")
    (hl : s1.messages.getLast? = some last) :
    runToolCalled resp initState = (toolStep last.content).2 := by
  unfold runToolCalled
  rw [hcm]
  show (if s1.next = "call_tool" then
      match s1.messages.getLast? with
      | some last2 => (toolStep last2.content).2
      | none => false
    else false) = _
  rw [if_pos hn, hl]


theorem getLast?_some_of_ne_nil {α : Type} {l : List α} (h : l ≠ []) :
    ∃ a, l.getLast? = some a := by
  cases hgl : l.getLast? with
  | some a => exact ⟨a, rfl⟩
  | none => exact absurd (List.getLast?_eq_none_iff.mp hgl) h

theorem call_model_empty (resp : Option String) (st : AgentState)
    (h : st.messages = []) : call_model resp st = none := by
  unfold call_model
  rw [h]
  rfl

theorem call_tool_empty (st : AgentState) (h : st.messages = []) :
    call_tool st = none := by
  unfold call_tool
  rw [h]
  rfl

theorem call_model_total (resp : Option String) (st : AgentState)
    (h : st.messages ≠ []) : ∃ s1, call_model resp st = some s1 := by
  obtain ⟨last, hl⟩ := getLast?_some_of_ne_nil h
  unfold call_model
  rw [hl]
  cases resp with
  | none => exact ⟨_, rfl⟩
  | some r =>
    show ∃ s1, (match decisionJson r with
      | none => some (AgentState.mk (st.messages ++ [fallbackMsg]) END)
      | some parsed =>
        match pyIn "tool" parsed with
        | none => some (AgentState.mk (st.messages ++ [fallbackMsg]) END)
        | some b => some (AgentState.mk (st.messages ++ [Message.mk .ai parsed.dumps])
            (if b then "call_tool" else END))) = some s1
    cases hd : decisionJson r with
    | none => exact ⟨_, rfl⟩
    | some j =>
      show ∃ s1, (match pyIn "tool" j with
        | none => some (AgentState.mk (st.messages ++ [fallbackMsg]) END)
        | some b => some (AgentState.mk (st.messages ++ [Message.mk .ai j.dumps])
            (if b then "call_tool" else END))) = some s1
      cases hin : pyIn "tool" j with
      | none => exact ⟨_, rfl⟩
      | some b => exact ⟨_, rfl⟩

theorem call_tool_total (st : AgentState) (h : st.messages ≠ []) :
    ∃ s2, call_tool st = some s2 ∧ s2.next = END := by
  obtain ⟨last, hl⟩ := getLast?_some_of_ne_nil h
  unfold call_tool
  rw [hl]
  exact ⟨_, rfl, rfl⟩

theorem call_tool_next (st s2 : AgentState) (h : call_tool st = some s2) :
    s2.next = END := by
  unfold call_tool at h
  cases hl : st.messages.getLast? with
  | none =>
    rw [hl] at h
    exact absurd h (by simp)
  | some last =>
    rw [hl] at h
    simp only [Option.some.injEq] at h
    rw [← h]


/-! ## The claims -/

/-- C1: for every endpoint response whose extracted JSON parses to an object
naming the tool `say_hello` with a non-empty string `tool_input`, one full run
prints exactly `Hello, <name>!`, and the `say_hello` tool function is invoked. -/
theorem C1_tool_call_prints_hello (r : String) (m : Json) (name : String)
    (hd : decisionJson r = some (Json.jobj m))
    (ht : m.lookup "tool" = some (.jstr "say_hello"))
    (hti : m.lookup "tool_input" = some (.jstr name))
    (hne : name ≠ "") :
    program_output r = "Hello, " ++ name ++ "!" ∧
      runToolCalled (some r) initState = true := by
  obtain ⟨hv, hw⟩ := decisionJson_wf r _ hd
  have hcm := call_model_run r (Json.jobj m) true hd (pyIn_tool_true m _ ht)
  have hlast : (initState.messages ++ [Message.mk Role.ai (Json.jobj m).dumps]).getLast?
      = some (Message.mk Role.ai (Json.jobj m).dumps) := List.getLast?_concat _
  have hts := toolStep_success (Json.jobj m).dumps m name
    (parse_dumps (Json.jobj m) rfl hw) ht hti hne
  constructor
  · have hchain := chain_invoke_tool (some r) _ hcm rfl _ hlast
    unfold program_output mainPrint
    rw [hchain]
    show renderResult (AgentState.mk
      ((initState.messages ++ [Message.mk Role.ai (Json.jobj m).dumps]) ++
        [Message.mk Role.ai (toolStep (Json.jobj m).dumps).1]) END) = _
    rw [hts]
    exact renderResult_final _ _ _
  · rw [runToolCalled_tool (some r) _ _ hcm rfl hlast]
    show (toolStep (Json.jobj m).dumps).2 = true
    rw [hts]

/-- C1, instantiated: the endpoint answers
`Sure! {"tool": "say_hello", "tool_input": "Bob"}`, the extracted JSON is the
object literal, and the run prints `Hello, Bob!`. -/
theorem C1_witness :
    decisionJson "Sure! \x7b\"tool\": \"say_hello\", \"tool_input\": \"Bob\"\x7d"
      = some (Json.jobj (.mcons "tool" (.jstr "say_hello")
          (.mcons "tool_input" (.jstr "Bob") .mnil))) ∧
    program_output "Sure! \x7b\"tool\": \"say_hello\", \"tool_input\": \"Bob\"\x7d"
      = "Hello, Bob!" ∧
    runToolCalled (some "Sure! \x7b\"tool\": \"say_hello\", \"tool_input\": \"Bob\"\x7d")
      initState = true := by
  refine ⟨by decide, ?_, ?_⟩
  · exact (C1_tool_call_prints_hello _
      (.mcons "tool" (.jstr "say_hello") (.mcons "tool_input" (.jstr "Bob") .mnil)) "Bob"
      (by decide) (by decide) (by decide) (by decide)).1
  · exact (C1_tool_call_prints_hello _
      (.mcons "tool" (.jstr "say_hello") (.mcons "tool_input" (.jstr "Bob") .mnil)) "Bob"
      (by decide) (by decide) (by decide) (by decide)).2

/-- C3: a response with no brace substring makes the run print the fixed
apology, reach the terminal state, and never invoke the tool. -/
theorem C3_no_braces_apology (r : String)
    (ho : '\x7b' ∉ r.data) (hc : '\x7d' ∉ r.data) :
    program_output r = apologyText ∧
      (∃ res, chain_invoke (some r) initState = some res ∧ res.next = END) ∧
      runToolCalled (some r) initState = false := by
  have hd := decisionJson_none_of_no_brace r ho
  have hcm := call_model_fallback r hd
  have hnx : (AgentState.mk (initState.messages ++ [fallbackMsg]) END).next
      ≠ "call_tool" := by decide
  have hchain := chain_invoke_direct (some r) _ hcm hnx
  refine ⟨?_, ⟨_, hchain, rfl⟩, runToolCalled_direct (some r) _ hcm hnx⟩
  unfold program_output mainPrint
  rw [hchain]
  exact renderResult_final initState.messages END apologyText

/-- C3, instantiated at a braceless response. -/
theorem C3_witness :
    '\x7b' ∉ "no braces here".data ∧ '\x7d' ∉ "no braces here".data ∧
    program_output "no braces here" = apologyText ∧
    runToolCalled (some "no braces here") initState = false := by
  refine ⟨by decide, by decide, ?_, ?_⟩
  · exact (C3_no_braces_apology "no braces here" (by decide) (by decide)).1
  · exact (C3_no_braces_apology "no braces here" (by decide) (by decide)).2.2

/-- C4: a decision naming `say_hello` whose `tool_input` is absent or the
empty string makes the run print the fixed no-name string, and the tool
function is never called. -/
theorem C4_missing_input_no_call (r : String) (m : Json)
    (hd : decisionJson r = some (Json.jobj m))
    (ht : m.lookup "tool" = some (.jstr "say_hello"))
    (hti : m.lookup "tool_input" = none ∨ m.lookup "tool_input" = some (.jstr "")) :
    program_output r = noNameText ∧ runToolCalled (some r) initState = false := by
  obtain ⟨hv, hw⟩ := decisionJson_wf r _ hd
  have hcm := call_model_run r (Json.jobj m) true hd (pyIn_tool_true m _ ht)
  have hlast : (initState.messages ++ [Message.mk Role.ai (Json.jobj m).dumps]).getLast?
      = some (Message.mk Role.ai (Json.jobj m).dumps) := List.getLast?_concat _
  have hts := toolStep_noName (Json.jobj m).dumps m
    (parse_dumps (Json.jobj m) rfl hw) ht hti
  constructor
  · have hchain := chain_invoke_tool (some r) _ hcm rfl _ hlast
    unfold program_output mainPrint
    rw [hchain]
    show renderResult (AgentState.mk
      ((initState.messages ++ [Message.mk Role.ai (Json.jobj m).dumps]) ++
        [Message.mk Role.ai (toolStep (Json.jobj m).dumps).1]) END) = _
    rw [hts]
    exact renderResult_final _ _ _
  · rw [runToolCalled_tool (some r) _ _ hcm rfl hlast]
    show (toolStep (Json.jobj m).dumps).2 = false
    rw [hts]

/-- C4, instantiated at `\x7b"tool": "say_hello"\x7d` (no `tool_input`). -/
theorem C4_witness :
    decisionJson "\x7b\"tool\": \"say_hello\"\x7d"
      = some (Json.jobj (.mcons "tool" (.jstr "say_hello") .mnil)) ∧
    program_output "\x7b\"tool\": \"say_hello\"\x7d" = noNameText ∧
    runToolCalled (some "\x7b\"tool\": \"say_hello\"\x7d") initState = false := by
  refine ⟨by decide, ?_, ?_⟩
  · exact (C4_missing_input_no_call _ (.mcons "tool" (.jstr "say_hello") .mnil)
      (by decide) (by decide) (Or.inl (by decide))).1
  · exact (C4_missing_input_no_call _ (.mcons "tool" (.jstr "say_hello") .mnil)
      (by decide) (by decide) (Or.inl (by decide))).2


theorem pyIn_obj_true (key : String) (m v : Json) (h : m.lookup key = some v) :
    pyIn key (Json.jobj m) = some true := by
  show some (m.hasKeyB key) = some true
  unfold Json.hasKeyB
  rw [h]
  rfl

theorem call_tool_run (st : AgentState) (last : Message)
    (hne : st.messages.getLast? = some last) :
    call_tool st = some (AgentState.mk
      (st.messages ++ [Message.mk .ai (toolStep last.content).1]) END) := by
  unfold call_tool
  rw [hne]

/-- C2 (amended): a decision object carrying `final_answer` (and no `tool`
key) makes the run print exactly that text. -/
theorem C2_final_answer_prints_text (r : String) (m : Json) (t : String)
    (hd : decisionJson r = some (Json.jobj m))
    (hnt : m.lookup "tool" = none)
    (hfa : m.lookup "final_answer" = some (.jstr t)) :
    program_output r = t := by
  obtain ⟨hv, hw⟩ := decisionJson_wf r _ hd
  have hb : pyIn "tool" (Json.jobj m) = some false := by
    show some (m.hasKeyB "tool") = some false
    unfold Json.hasKeyB
    rw [hnt]
    rfl
  have hcm := call_model_run r (Json.jobj m) false hd hb
  have hnx : (AgentState.mk
      (initState.messages ++ [Message.mk Role.ai (Json.jobj m).dumps])
      (if false then "call_tool" else END)).next ≠ "call_tool" := by
    show ¬((END : String) = "call_tool")
    decide
  have hchain := chain_invoke_direct (some r) _ hcm hnx
  unfold program_output mainPrint
  rw [hchain]
  show renderResult (AgentState.mk
    (initState.messages ++ [Message.mk Role.ai (Json.jobj m).dumps])
    (if false then "call_tool" else END)) = t
  unfold renderResult
  rw [show (AgentState.mk (initState.messages ++ [Message.mk Role.ai (Json.jobj m).dumps])
      (if false then "call_tool" else END)).messages.getLast?
      = some (Message.mk Role.ai (Json.jobj m).dumps) from List.getLast?_concat _]
  show (match Json.parse (Json.jobj m).dumps with
    | none => (Json.jobj m).dumps
    | some parsed =>
      match pyIn "final_answer" parsed with
      | none => "An error occurred: " ++ typeErrMsg
      | some true =>
        match parsed with
        | .jobj m2 => pyStr ((m2.lookup "final_answer").getD .jnull)
        | _ => "An error occurred: " ++ typeErrMsg
      | some false => pyStr parsed) = t
  rw [parse_dumps (Json.jobj m) rfl hw]
  show (match pyIn "final_answer" (Json.jobj m) with
    | none => "An error occurred: " ++ typeErrMsg
    | some true => pyStr ((m.lookup "final_answer").getD .jnull)
    | some false => pyStr (Json.jobj m)) = t
  rw [pyIn_obj_true "final_answer" m _ hfa]
  show pyStr ((m.lookup "final_answer").getD .jnull) = t
  rw [hfa]
  rfl

/-- C2, refuted as stated: on the response `\x7b"x": 1\x7d` the final message
is valid JSON, has no `final_answer` entry, and the program prints the Python
`str()` of the parsed dict — a third print shape that is neither the
final-answer text nor the raw message text. -/
theorem C2_counterexample :
    program_output "\x7b\"x\": 1\x7d" = "\x7b\x27x\x27: 1\x7d" ∧
    finalMessage "\x7b\"x\": 1\x7d" = "\x7b\"x\": 1\x7d" ∧
    "\x7b\x27x\x27: 1\x7d" ≠ "\x7b\"x\": 1\x7d" ∧
    Json.parse "\x7b\"x\": 1\x7d" = some (Json.jobj (.mcons "x" (.jint 1) .mnil)) ∧
    (Json.mcons "x" (Json.jint 1) Json.mnil).lookup "final_answer" = none :=
  ⟨by decide, by decide, by decide, by decide, by decide⟩

/-- C2, instantiated: `\x7b"final_answer": "I don\x27t know."\x7d` prints
`I don\x27t know.`. -/
theorem C2_witness :
    decisionJson "\x7b\"final_answer\": \"I don\x27t know.\"\x7d"
      = some (Json.jobj (.mcons "final_answer" (.jstr "I don\x27t know.") .mnil)) ∧
    program_output "\x7b\"final_answer\": \"I don\x27t know.\"\x7d"
      = "I don\x27t know." := by
  refine ⟨by decide, ?_⟩
  exact C2_final_answer_prints_text _ (.mcons "final_answer" (.jstr "I don\x27t know.") .mnil)
    "I don\x27t know." (by decide) (by decide) (by decide)

/-- C5: whenever the endpoint call raises, the response has no brace pair,
parsing fails, or the membership test on the parsed value raises, `call_model`
propagates nothing: it appends the fixed-apology `FinalAnswer` message and
marks control terminal. -/
theorem C5_decision_fail_safe (resp : Option String) (st : AgentState)
    (last : Message) (hne : st.messages.getLast? = some last)
    (hfail : resp = none ∨ (∃ r, resp = some r ∧ decisionJson r = none) ∨
      (∃ r j, resp = some r ∧ decisionJson r = some j ∧ pyIn "tool" j = none)) :
    call_model resp st = some (AgentState.mk (st.messages ++ [fallbackMsg]) END) := by
  unfold call_model
  rw [hne]
  rcases hfail with rfl | ⟨r, rfl, hd⟩ | ⟨r, j, rfl, hd, hin⟩
  · rfl
  · show (match decisionJson r with
      | none => some (AgentState.mk (st.messages ++ [fallbackMsg]) END)
      | some parsed =>
        match pyIn "tool" parsed with
        | none => some (AgentState.mk (st.messages ++ [fallbackMsg]) END)
        | some b => some (AgentState.mk (st.messages ++ [Message.mk .ai parsed.dumps])
            (if b then "call_tool" else END))) = _
    rw [hd]
  · show (match decisionJson r with
      | none => some (AgentState.mk (st.messages ++ [fallbackMsg]) END)
      | some parsed =>
        match pyIn "tool" parsed with
        | none => some (AgentState.mk (st.messages ++ [fallbackMsg]) END)
        | some b => some (AgentState.mk (st.messages ++ [Message.mk .ai parsed.dumps])
            (if b then "call_tool" else END))) = _
    rw [hd]
    show (match pyIn "tool" j with
      | none => some (AgentState.mk (st.messages ++ [fallbackMsg]) END)
      | some b => some (AgentState.mk (st.messages ++ [Message.mk .ai j.dumps])
          (if b then "call_tool" else END))) = _
    rw [hin]

/-- C5, instantiated at a braceless response from the initial state. -/
theorem C5_witness :
    initState.messages.getLast? = some (Message.mk .human "Please say hello to Alice") ∧
    decisionJson "no json at all" = none ∧
    call_model (some "no json at all") initState
      = some (AgentState.mk (initState.messages ++ [fallbackMsg]) END) := by
  refine ⟨rfl, by decide, ?_⟩
  exact C5_decision_fail_safe (some "no json at all") initState _ rfl
    (Or.inr (Or.inl ⟨_, rfl, by decide⟩))

/-- C6, refuted as stated: the message appended on a parse failure and the one
appended on an unrecognized tool name are different strings, so no single
fixed failure string covers both cases the claim joins. -/
theorem C6_counterexample :
    toolStep "oops"
      = ((finalAnswerObj ("Error executing tool: " ++ jsonDecodeErrMsg)).dumps, false) ∧
    toolStep "\x7b\"tool\": \"x\"\x7d" = ((finalAnswerObj wrongToolText).dumps, false) ∧
    (finalAnswerObj ("Error executing tool: " ++ jsonDecodeErrMsg)).dumps
      ≠ (finalAnswerObj wrongToolText).dumps :=
  ⟨by decide, by decide, by decide⟩

/-- C6 (amended): a parse failure appends a `FinalAnswer` reading
`Error executing tool: ` followed by the error text; an unrecognized tool name
appends the fixed wrong-tool string; and the step throws nothing past itself
(its messages list being non-empty). -/
theorem C6_tool_step_failures (st : AgentState) (last : Message)
    (hne : st.messages.getLast? = some last) :
    (Json.parse last.content = none →
      call_tool st = some (AgentState.mk (st.messages ++
        [Message.mk .ai
          (finalAnswerObj ("Error executing tool: " ++ jsonDecodeErrMsg)).dumps]) END)) ∧
    (∀ m, Json.parse last.content = some (Json.jobj m) →
      m.lookup "tool" ≠ some (.jstr "say_hello") →
      call_tool st = some (AgentState.mk (st.messages ++
        [Message.mk .ai (finalAnswerObj wrongToolText).dumps]) END)) ∧
    (∃ s2, call_tool st = some s2 ∧ s2.next = END) := by
  refine ⟨fun hp => ?_, fun m hp hl => ?_, ⟨_, call_tool_run st last hne, rfl⟩⟩
  · rw [call_tool_run st last hne, toolStep_parseFail _ hp]
  · rw [call_tool_run st last hne, toolStep_wrongTool _ m hp hl]

/-- C6, instantiated: a state whose last message is not JSON, and one naming
an unknown tool. -/
theorem C6_witness :
    call_tool (AgentState.mk [Message.mk .ai "not json"] "call_tool")
      = some (AgentState.mk (Message.mk .ai "not json" ::
          [Message.mk .ai
            (finalAnswerObj ("Error executing tool: " ++ jsonDecodeErrMsg)).dumps]) END) ∧
    call_tool (AgentState.mk [Message.mk .ai "\x7b\"tool\": \"nope\"\x7d"] "call_tool")
      = some (AgentState.mk (Message.mk .ai "\x7b\"tool\": \"nope\"\x7d" ::
          [Message.mk .ai (finalAnswerObj wrongToolText).dumps]) END) := by
  constructor
  · exact (C6_tool_step_failures (AgentState.mk [Message.mk .ai "not json"] "call_tool")
      (Message.mk .ai "not json") rfl).1 (by decide)
  · exact (C6_tool_step_failures
      (AgentState.mk [Message.mk .ai "\x7b\"tool\": \"nope\"\x7d"] "call_tool")
      (Message.mk .ai "\x7b\"tool\": \"nope\"\x7d") rfl).2.1
      (.mcons "tool" (.jstr "nope") .mnil) (by decide) (by decide)


/-- C7, refuted as stated: the initial user message is not JSON at all, and a
run over `\x7b"y": 2\x7d` ends with a last message that is valid JSON but
matches neither the `ToolInvocation` nor the `FinalAnswer` variant. -/
theorem C7_counterexample :
    initState.messages.getLast? = some (Message.mk .human "Please say hello to Alice") ∧
    Json.parse "Please say hello to Alice" = none ∧
    finalMessage "\x7b\"y\": 2\x7d" = "\x7b\"y\": 2\x7d" ∧
    Json.parse "\x7b\"y\": 2\x7d" = some (Json.jobj (.mcons "y" (.jint 2) .mnil)) ∧
    (Json.mcons "y" (Json.jint 2) Json.mnil).lookup "tool" = none ∧
    (Json.mcons "y" (Json.jint 2) Json.mnil).lookup "final_answer" = none :=
  ⟨rfl, by decide, by decide, by decide, by decide, by decide⟩

/-- C7 (amended): every message the two steps append is well-formed JSON text
— the re-serialization of the parsed decision, or a `FinalAnswer` object; the
tool step in particular always appends a `FinalAnswer`.  The initial user
message, and decision objects of other shapes, are not constrained to the two
variants. -/
theorem C7_appended_messages_parse :
    (∀ resp st s1, call_model resp st = some s1 →
      ∃ last j, s1.messages.getLast? = some last ∧ Json.parse last.content = some j) ∧
    (∀ st s2, call_tool st = some s2 →
      ∃ last t, s2.messages.getLast? = some last ∧
        Json.parse last.content = some (finalAnswerObj t) ∧
        pyIn "final_answer" (finalAnswerObj t) = some true) := by
  constructor
  · intro resp st s1 h
    unfold call_model at h
    cases hl : st.messages.getLast? with
    | none =>
      rw [hl] at h
      exact absurd h (by simp)
    | some last0 =>
      rw [hl] at h
      cases resp with
      | none =>
        replace h : some (AgentState.mk (st.messages ++ [fallbackMsg]) END) = some s1 := h
        simp only [Option.some.injEq] at h
        subst h
        exact ⟨fallbackMsg, finalAnswerObj apologyText, List.getLast?_concat _,
          parse_dumps (finalAnswerObj apologyText) rfl rfl⟩
      | some r =>
        replace h : (match decisionJson r with
          | none => some (AgentState.mk (st.messages ++ [fallbackMsg]) END)
          | some parsed =>
            match pyIn "tool" parsed with
            | none => some (AgentState.mk (st.messages ++ [fallbackMsg]) END)
            | some b => some (AgentState.mk
                (st.messages ++ [Message.mk .ai parsed.dumps])
                (if b then "call_tool" else END))) = some s1 := h
        cases hd : decisionJson r with
        | none =>
          rw [hd] at h
          simp only [Option.some.injEq] at h
          subst h
          exact ⟨fallbackMsg, finalAnswerObj apologyText, List.getLast?_concat _,
            parse_dumps (finalAnswerObj apologyText) rfl rfl⟩
        | some j =>
          rw [hd] at h
          replace h : (match pyIn "tool" j with
            | none => some (AgentState.mk (st.messages ++ [fallbackMsg]) END)
            | some b => some (AgentState.mk
                (st.messages ++ [Message.mk .ai j.dumps])
                (if b then "call_tool" else END))) = some s1 := h
          obtain ⟨hv, hw⟩ := decisionJson_wf r j hd
          cases hin : pyIn "tool" j with
          | none =>
            rw [hin] at h
            simp only [Option.some.injEq] at h
            subst h
            exact ⟨fallbackMsg, finalAnswerObj apologyText, List.getLast?_concat _,
              parse_dumps (finalAnswerObj apologyText) rfl rfl⟩
          | some b =>
            rw [hin] at h
            simp only [Option.some.injEq] at h
            subst h
            exact ⟨Message.mk .ai j.dumps, j, List.getLast?_concat _,
              parse_dumps j hv hw⟩
  · intro st s2 h
    unfold call_tool at h
    cases hl : st.messages.getLast? with
    | none =>
      rw [hl] at h
      exact absurd h (by simp)
    | some last0 =>
      rw [hl] at h
      simp only [Option.some.injEq] at h
      subst h
      obtain ⟨t, b, hts⟩ := toolStep_shape last0.content
      refine ⟨Message.mk .ai (toolStep last0.content).1, t, List.getLast?_concat _, ?_,
        by rfl⟩
      show Json.parse (toolStep last0.content).1 = some (finalAnswerObj t)
      rw [hts]
      exact parse_dumps (finalAnswerObj t) rfl rfl

/-- C7, instantiated: the decision step on a raising endpoint appends the
apology message, which parses. -/
theorem C7_witness :
    call_model none initState
      = some (AgentState.mk (initState.messages ++ [fallbackMsg]) END) ∧
    Json.parse fallbackMsg.content = some (finalAnswerObj apologyText) := by
  refine ⟨by decide, ?_⟩
  obtain ⟨last, j, hlast, hparse⟩ := C7_appended_messages_parse.1 none initState
    (AgentState.mk (initState.messages ++ [fallbackMsg]) END) (by decide)
  have hl2 : last = fallbackMsg := by
    have := hlast
    rw [show (AgentState.mk (initState.messages ++ [fallbackMsg]) END).messages.getLast?
        = some fallbackMsg from List.getLast?_concat _] at this
    simpa using this.symm
  rw [← hl2]
  rw [show Json.parse last.content = some j from hparse]
  subst hl2
  have : j = finalAnswerObj apologyText := by
    have h2 : Json.parse fallbackMsg.content = some (finalAnswerObj apologyText) :=
      parse_dumps (finalAnswerObj apologyText) rfl rfl
    rw [hparse] at h2
    simpa using h2
  rw [this]

/-- C8: the control flow follows the spec transition table — the decision
step hands control to the tool step exactly when the membership test for
`"tool"` in the parsed object answers true, otherwise the run ends; the tool
step always hands control to the terminal state; one decision and at most one
tool step make up the whole run. -/
theorem C8_transition_table :
    (∀ resp st s1, call_model resp st = some s1 →
      chain_invoke resp st = if s1.next = "call_tool" then call_tool s1 else some s1) ∧
    (∀ r st j b s1, decisionJson r = some j → pyIn "tool" j = some b →
      call_model (some r) st = some s1 → (s1.next = "call_tool" ↔ b = true)) ∧
    (∀ st s2, call_tool st = some s2 → s2.next = END) := by
  refine ⟨fun resp st s1 h => ?_, fun r st j b s1 hd hb hcm => ?_, call_tool_next⟩
  · unfold chain_invoke
    rw [h]
  · unfold call_model at hcm
    cases hl : st.messages.getLast? with
    | none =>
      rw [hl] at hcm
      exact absurd hcm (by simp)
    | some last0 =>
      rw [hl] at hcm
      replace hcm : (match decisionJson r with
        | none => some (AgentState.mk (st.messages ++ [fallbackMsg]) END)
        | some parsed =>
          match pyIn "tool" parsed with
          | none => some (AgentState.mk (st.messages ++ [fallbackMsg]) END)
          | some b2 => some (AgentState.mk
              (st.messages ++ [Message.mk .ai parsed.dumps])
              (if b2 then "call_tool" else END))) = some s1 := hcm
      rw [hd] at hcm
      replace hcm : (match pyIn "tool" j with
        | none => some (AgentState.mk (st.messages ++ [fallbackMsg]) END)
        | some b2 => some (AgentState.mk
            (st.messages ++ [Message.mk .ai j.dumps])
            (if b2 then "call_tool" else END))) = some s1 := hcm
      rw [hb] at hcm
      replace hcm : some (AgentState.mk (st.messages ++ [Message.mk .ai j.dumps])
          (if b then "call_tool" else END)) = some s1 := hcm
      simp only [Option.some.injEq] at hcm
      subst hcm
      cases b
      · show ((END : String) = "call_tool") ↔ (false = true)
        decide
      · show (("call_tool" : String) = "call_tool") ↔ (true = true)
        decide


/-- C8, instantiated: a decision without a `tool` key keeps control out of the
tool step, and the tool step ends in the terminal state. -/
theorem C8_witness :
    decisionJson "\x7b\"final_answer\": \"ok\"\x7d"
      = some (Json.jobj (.mcons "final_answer" (.jstr "ok") .mnil)) ∧
    pyIn "tool" (Json.jobj (.mcons "final_answer" (.jstr "ok") .mnil)) = some false ∧
    call_model (some "\x7b\"final_answer\": \"ok\"\x7d") initState
      = some (AgentState.mk (initState.messages ++
          [Message.mk .ai (Json.jobj (.mcons "final_answer" (.jstr "ok") .mnil)).dumps])
          (if false then "call_tool" else END)) ∧
    ¬((AgentState.mk (initState.messages ++
        [Message.mk .ai (Json.jobj (.mcons "final_answer" (.jstr "ok") .mnil)).dumps])
        (if false then "call_tool" else END)).next = "call_tool") ∧
    (((AgentState.mk (initState.messages ++
        [Message.mk .ai (Json.jobj (.mcons "final_answer" (.jstr "ok") .mnil)).dumps])
        (if false then "call_tool" else END)).next = "call_tool") ↔ (false = true)) := by
  refine ⟨by decide, by decide, by decide, by decide, ?_⟩
  exact C8_transition_table.2.1 "\x7b\"final_answer\": \"ok\"\x7d" initState
    (Json.jobj (.mcons "final_answer" (.jstr "ok") .mnil)) false _
    (by decide) (by decide) (by decide)

/-- C9: with any fixed (deterministic) endpoint behaviour, two runs of the
program from the hardcoded example request print the same line. -/
theorem C9_deterministic_runs (resp : Option String) (out1 out2 : String)
    (h1 : mainPrint resp = out1) (h2 : mainPrint resp = out2) : out1 = out2 := by
  rw [← h1, ← h2]

/-- C9, instantiated at a concrete stubbed response run twice. -/
theorem C9_witness :
    mainPrint (some "hello there") = apologyText ∧ apologyText = apologyText :=
  ⟨by decide, C9_deterministic_runs (some "hello there") apologyText apologyText
    (by decide) (by decide)⟩

/-- C10: with an empty message sequence both steps read `messages[-1]` before
their `try` blocks and raise an uncaught `IndexError` (modelled as `none`);
with a non-empty sequence both steps always return a successor state, which is
the precondition under which their no-propagation guarantee holds. -/
theorem C10_empty_messages_raise (st : AgentState) :
    (st.messages = [] → (∀ resp, call_model resp st = none) ∧ call_tool st = none) ∧
    (st.messages ≠ [] → (∀ resp, ∃ s1, call_model resp st = some s1) ∧
      ∃ s2, call_tool st = some s2) := by
  constructor
  · intro h
    exact ⟨fun resp => call_model_empty resp st h, call_tool_empty st h⟩
  · intro h
    refine ⟨fun resp => call_model_total resp st h, ?_⟩
    obtain ⟨s2, hs2, _⟩ := call_tool_total st h
    exact ⟨s2, hs2⟩

/-- C10, instantiated at the empty and the hardcoded initial state. -/
theorem C10_witness :
    (AgentState.mk [] "").messages = [] ∧
    call_model none (AgentState.mk [] "") = none ∧
    call_tool (AgentState.mk [] "") = none ∧
    initState.messages ≠ [] ∧
    (∃ s1, call_model none initState = some s1) := by
  refine ⟨rfl, ?_, ?_, by decide, ?_⟩
  · exact ((C10_empty_messages_raise (AgentState.mk [] "")).1 rfl).1 none
  · exact ((C10_empty_messages_raise (AgentState.mk [] "")).1 rfl).2
  · exact ((C10_empty_messages_raise initState).2 (by decide)).1 none

end AgenticHello
